import Mathlib

/-!
Shallow embedding of the CDQ repository-content resolution engine
(`search`, `AnalyzePath`, `SearchForDockerfile`, `AnalyzeAndDetectDevfile`
from the `pkg` package of the source), together with theorems checking the
specification's claims about it.

External collaborators (the devfile parser, the Alizer classifier, the
registry lookup, git-link construction and on-disk devfile validation) are
out of scope of the reviewed source and are modelled as an opaque
environment `Env` of total functions; the filesystem tree handed to
`search` is modelled as an explicit list of entries (directory listing
order is the list order).  I/O failure of a directory read is not modelled;
no claim concerns it.
-/

set_option autoImplicit false

namespace CdqAnalysis

/-- Raw file bytes (`[]byte` in the source). -/
abbrev Bytes := List Nat

/-- The error values the embedded functions produce.  `invalidDevfile`
mirrors the `InvalidDevfile` wrapper struct, `noDevfileFound` the
`NoDevfileFound` struct (the only error the code discriminates by type);
every other error is carried as a message. -/
inductive GoErr where
  | invalidDevfile (inner : GoErr)
  | noDevfileFound (location : String)
  | errMsg (msg : String)
deriving DecidableEq

/-- `v1alpha2.DockerfileImage`, reduced to the one field the code reads
(`DockerfileSrc.Uri`). -/
structure DockerfileImage where
  uri : String
deriving DecidableEq

/-- The `Image` part of a devfile component (`component.Image`). -/
structure ImageUnion where
  dockerfile : Option DockerfileImage
deriving DecidableEq

/-- A devfile component of image type, as returned by `GetComponents`
filtered to `ImageComponentType`. -/
structure ImageComponent where
  image : Option ImageUnion
deriving DecidableEq

/-- Parsed devfile data, reduced to the one observation the code makes of
it in this source: the result of `GetComponents` with the image-component
filter (which itself may fail). -/
structure DevfileData where
  imageComponents : Except GoErr (List ImageComponent)

/-- `model.Language` of the Alizer classifier, reduced to the field the
code reads. -/
structure Language where
  canBeComponent : Bool
deriving DecidableEq

/-- `model.Component` of the Alizer classifier.  `ports = none` models a
nil `[]int` slice, `some []` a non-nil empty slice. -/
structure AlizerComponent where
  languages : List Language
  ports : Option (List Int)
deriving DecidableEq

/-- `model.DevfileType`; the code reads `.Name` and compares the whole
value against the zero value `model.DevfileType{}`. -/
structure DevfileType where
  name : String
  language : String
  projectType : String
  tags : List String
deriving DecidableEq

/-- The zero value `model.DevfileType{}`. -/
def emptyDevfileType : DevfileType := ⟨"", "", "", []⟩

/-- `CDQInfoClient.GitURL`. -/
structure GitURL where
  repoURL : String
  revision : String
  token : String

/-- `CDQInfoClient`. -/
structure CDQInfoClient where
  gitURL : GitURL
  devfileRegistryURL : String

/-- A filesystem entry as seen by `os.ReadDir`: either a plain file or a
directory with its own listing. -/
inductive FSEntry where
  | file (name : String)
  | dir (name : String) (children : List FSEntry)

def FSEntry.name : FSEntry → String
  | .file n => n
  | .dir n _ => n

def FSEntry.isDir : FSEntry → Bool
  | .file _ => false
  | .dir _ _ => true

def FSEntry.children : FSEntry → List FSEntry
  | .file _ => []
  | .dir _ cs => cs

/-- `path.Join` of the source, for the clean, slash-free path elements the
engine joins (in which case Go's cleaning is the identity). -/
def pathJoin (a b : String) : String :=
  if a = "" then b else if b = "" then a else a ++ "/" ++ b

/-- Modelled from the spec: the recognized flat manifest file name
(`devfile.yaml`), a constant of the repository defined outside the
reviewed source. -/
def Devfile : String := "devfile.yaml"

/-- Modelled from the spec: the dotted/hidden manifest variant. -/
def HiddenDevfile : String := ".devfile.yaml"

/-- Modelled from the spec: the alternate-extension manifest variant. -/
def DevfileYml : String := "devfile.yml"

/-- Modelled from the spec: the dotted alternate-extension variant. -/
def HiddenDirDevfileYml : String := ".devfile.yml"

/-- Modelled from the spec: the hidden manifest directory name. -/
def HiddenDevfileDir : String := ".devfile"

/-- Modelled from the spec: the canonical build-file name. -/
def DockerfileName : String := "Dockerfile"

/-- Modelled from the spec: the alternate build-file name. -/
def ContainerfileName : String := "Containerfile"

/-- Modelled from the spec: the recognized build directory. -/
def DockerDir : String := "docker"

/-- Modelled from the spec: the hidden recognized build directory. -/
def HiddenDockerDir : String := ".docker"

/-- Modelled from the spec: the third recognized build directory. -/
def BuildDir : String := "build"

/-- `strings.ToLower` of the source, on the character list (the names the
engine compares are ASCII). -/
def strToLower (s : String) : String := ⟨s.data.map Char.toLower⟩

/-- `strings.HasPrefix` of the source, on the character list. -/
def listIsLeading : List Char → List Char → Bool
  | _, [] => true
  | [], _ :: _ => false
  | a :: as, b :: bs => a == b && listIsLeading as bs

/-- Whether `p` is a leading piece of `s` (`strings.HasPrefix(s, p)`). -/
def strStartsWith (s p : String) : Bool := listIsLeading s.data p.data

/-- The environment of external collaborators consumed by the engine,
modelled as total functions so that one scan is a pure function of the
request, the filesystem and this environment.
`selectDevFileFromTypes` returns both a value and an optional error
message, mirroring Go's multi-value return whose error is compared
against a specific message string. -/
structure Env where
  updateGitLink : String → String → String → Except GoErr String
  validateDevfile : String → String → Except GoErr (Bool × Bytes)
  parseDevfileData : Bytes → String → Except GoErr DevfileData
  parseDevfileURL : String → Except GoErr DevfileData
  yamlMarshal : DevfileData → Except GoErr Bytes
  getAlizerDevfileTypes : String → Except GoErr (List DevfileType)
  detectComponents : String → Except GoErr (List AlizerComponent)
  selectDevFileFromTypes : String → List DevfileType → DevfileType × Option String
  getRepoFromRegistry : String → String → Except GoErr String

/-- The four output mappings of one scan, each keyed by context string. -/
structure Maps where
  devfileMapFromRepo : String → Option Bytes
  devfilesURLMapFromRepo : String → Option String
  dockerfileContextMapFromRepo : String → Option String
  componentPortsMapFromRepo : String → Option (List Int)

/-- The freshly `make`d maps at the start of `search`. -/
def emptyMaps : Maps :=
  ⟨fun _ => none, fun _ => none, fun _ => none, fun _ => none⟩

/-- Go map assignment `m[k] = v`. -/
def mapSet {α : Type} (m : String → Option α) (k : String) (v : α) :
    String → Option α :=
  fun x => if x = k then some v else m x

/-- Go `delete(m, k)`. -/
def mapDelete {α : Type} (m : String → Option α) (k : String) :
    String → Option α :=
  fun x => if x = k then none else m x

/-- `SearchForDockerfile`'s loop over the image components: the first
component with a non-nil image, non-nil Dockerfile and non-empty
`DockerfileSrc.Uri` is returned. -/
def findFirstDockerfile : List ImageComponent → Option DockerfileImage
  | [] => none
  | component :: rest =>
    match component.image with
    | some image =>
      match image.dockerfile with
      | some d => if d.uri ≠ "" then some d else findFirstDockerfile rest
      | none => findFirstDockerfile rest
    | none => findFirstDockerfile rest

/-- `SearchForDockerfile`: empty devfile bytes short-circuit to
`(nil, nil)`; otherwise the bytes are parsed (a parse failure is wrapped
as `InvalidDevfile`), the image components are fetched, and the first
component declaring a Dockerfile URI is returned. -/
def SearchForDockerfile (env : Env) (devfileBytes : Bytes) (token : String) :
    Except GoErr (Option DockerfileImage) :=
  if devfileBytes.length = 0 then .ok none
  else
    match env.parseDevfileData devfileBytes token with
    | .error e => .error (GoErr.invalidDevfile e)
    | .ok devfileData =>
      match devfileData.imageComponents with
      | .error e => .error e
      | .ok comps => .ok (findFirstDockerfile comps)

/-- The success payload of `AnalyzeAndDetectDevfile`: detected devfile
bytes, devfile endpoint, sample name and detected ports. -/
abbrev DetectResult := Bytes × String × String × Option (List Int)

/-- One candidate devfile type inside `AnalyzeAndDetectDevfile`'s language
loop: if the selected type is not the zero value, resolve the sample
repository, build the endpoint link, parse and marshal the sample devfile;
non-empty marshalled bytes finish the loop (`some result`), empty bytes
fall through (`none`). -/
def tryDevfileType (env : Env) (devfileRegistryURL : String)
    (ports : Option (List Int)) (detectedType : DevfileType) :
    Except GoErr (Option DetectResult) :=
  if detectedType ≠ emptyDevfileType then
    match env.getRepoFromRegistry detectedType.name devfileRegistryURL with
    | .error e => .error e
    | .ok sampleRepoURL =>
      match env.updateGitLink sampleRepoURL "" Devfile with
      | .error e => .error e
      | .ok detectedDevfileEndpoint =>
        match env.parseDevfileURL detectedDevfileEndpoint with
        | .error e => .error e
        | .ok compDevfileData =>
          match env.yamlMarshal compDevfileData with
          | .error e => .error e
          | .ok devfileBytes =>
            if devfileBytes.length > 0 then
              .ok (some (devfileBytes, detectedDevfileEndpoint,
                detectedType.name, ports))
            else .ok none
  else .ok none

/-- The loop of `AnalyzeAndDetectDevfile` over the first component's
languages.  A select error is fatal unless its message is exactly the
"No valid devfile found for project in <path>" message; exhausting the
languages yields `NoDevfileFound`. -/
def detectLanguagesLoop (env : Env) (path devfileRegistryURL : String)
    (alizerDevfileTypes : List DevfileType) (ports : Option (List Int)) :
    List Language → Except GoErr DetectResult
  | [] => .error (GoErr.noDevfileFound path)
  | language :: rest =>
    if language.canBeComponent then
      let sel := env.selectDevFileFromTypes path alizerDevfileTypes
      let cont : Except GoErr DetectResult :=
        match tryDevfileType env devfileRegistryURL ports sel.1 with
        | .error e => .error e
        | .ok (some r) => .ok r
        | .ok none =>
          detectLanguagesLoop env path devfileRegistryURL alizerDevfileTypes
            ports rest
      match sel.2 with
      | some msg =>
        if msg ≠ "No valid devfile found for project in " ++ path then
          .error (GoErr.errMsg msg)
        else cont
      | none => cont
    else
      detectLanguagesLoop env path devfileRegistryURL alizerDevfileTypes
        ports rest

/-- `AnalyzeAndDetectDevfile`: fetch the registry's devfile types, detect
components at the path, fail with `NoDevfileFound` when none are detected,
and otherwise run the language loop over the first component. -/
def AnalyzeAndDetectDevfile (env : Env) (path devfileRegistryURL : String) :
    Except GoErr DetectResult :=
  match env.getAlizerDevfileTypes devfileRegistryURL with
  | .error e => .error e
  | .ok alizerDevfileTypes =>
    match env.detectComponents path with
    | .error e => .error e
    | .ok alizerComponents =>
      match alizerComponents with
      | [] => .error (GoErr.noDevfileFound path)
      | c :: _ =>
        detectLanguagesLoop env path devfileRegistryURL alizerDevfileTypes
          c.ports c.languages

/-- Step 1 of `AnalyzePath` (the `if isDevfilePresent` block): with a
devfile present, look for a Dockerfile embedded in its image components;
an absolute (http-prefixed) URI is recorded in the Dockerfile map, and any
embedded reference marks the Dockerfile as present. -/
def analyzePathStep1 (env : Env) (context : String) (maps : Maps)
    (isDevfilePresent isDockerfilePresent : Bool) (token : String) :
    Except GoErr (Maps × Bool) :=
  if isDevfilePresent then
    let devfileBytes := (maps.devfileMapFromRepo context).getD []
    match SearchForDockerfile env devfileBytes token with
    | .error e => .error e
    | .ok dockerfileImage =>
      match dockerfileImage with
      | some img =>
        if strStartsWith img.uri "http" then
          let d1 := mapSet maps.dockerfileContextMapFromRepo context img.uri
          .ok ({ maps with dockerfileContextMapFromRepo := d1 }, true)
        else .ok (maps, true)
      | none => .ok (maps, isDockerfilePresent)
  else .ok (maps, isDockerfilePresent)

/-- Step 2 of `AnalyzePath` (the `if !isDockerfilePresent` block): run
fallback detection, swallowing `NoDevfileFound`; a detected devfile fills
the devfile maps (only when no local devfile is present), always fills the
Dockerfile map with the sample-repository link, and fills the port map
when the detected ports are non-nil and non-empty. -/
def analyzePathStep2 (env : Env)
    (localpath context devfileRegistryURL : String) (maps1 : Maps)
    (isDevfilePresent dock1 : Bool) (token : String) :
    Except GoErr (Maps × Bool) :=
  if !dock1 then
    match AnalyzeAndDetectDevfile env localpath devfileRegistryURL with
    | .error e =>
      match e with
      | .noDevfileFound _ => .ok (maps1, dock1)
      | _ => .error e
    | .ok (detectedDevfile, detectedDevfileEndpoint, detectedSampleName,
        detectedPorts) =>
      if detectedDevfile.length > 0 then
        let maps2 :=
          if !isDevfilePresent then
            let dm := mapSet maps1.devfileMapFromRepo context detectedDevfile
            let um := mapSet maps1.devfilesURLMapFromRepo context detectedDevfileEndpoint
            { maps1 with devfileMapFromRepo := dm, devfilesURLMapFromRepo := um }
          else maps1
        match env.getRepoFromRegistry detectedSampleName
            devfileRegistryURL with
        | .error e => .error e
        | .ok sampleRepoURL =>
          match SearchForDockerfile env detectedDevfile token with
          | .error e => .error e
          | .ok dockerfileImage =>
            let dockerfileUri :=
              match dockerfileImage with
              | some img => img.uri
              | none => ""
            match env.updateGitLink sampleRepoURL "" dockerfileUri with
            | .error e => .error e
            | .ok link =>
              let d2 := mapSet maps2.dockerfileContextMapFromRepo context link
              let maps3 := { maps2 with dockerfileContextMapFromRepo := d2 }
              let maps4 :=
                match detectedPorts with
                | some ps =>
                  if ps = [] then maps3
                  else
                    let pm := mapSet maps3.componentPortsMapFromRepo context ps
                    { maps3 with componentPortsMapFromRepo := pm }
                | none => maps3
              .ok (maps4, true)
      else .ok (maps1, dock1)
  else .ok (maps1, dock1)

/-- Step 3 of `AnalyzePath` (the `if !isDevfilePresent &&
isDockerfilePresent` block): run detection once more solely to harvest
ports; detection errors are only logged. -/
def analyzePathStep3 (env : Env)
    (localpath context devfileRegistryURL : String) (maps2 : Maps)
    (isDevfilePresent dock2 : Bool) : Except GoErr Maps :=
  if !isDevfilePresent && dock2 then
    match AnalyzeAndDetectDevfile env localpath devfileRegistryURL with
    | .ok (_, _, _, detectedPorts) =>
      match detectedPorts with
      | some ps =>
        if ps = [] then .ok maps2
        else
          let pm := mapSet maps2.componentPortsMapFromRepo context ps
          .ok { maps2 with componentPortsMapFromRepo := pm }
      | none => .ok maps2
    | .error _ => .ok maps2
  else .ok maps2

/-- `AnalyzePath`, the sequential composition of its three blocks (the
source writes them as one function body over the mutable maps and the two
flags; here each block passes the maps and the Dockerfile flag on
explicitly). -/
def AnalyzePath (env : Env)
    (localpath context devfileRegistryURL : String) (maps : Maps)
    (isDevfilePresent isDockerfilePresent : Bool) (token : String) :
    Except GoErr Maps :=
  match analyzePathStep1 env context maps isDevfilePresent
      isDockerfilePresent token with
  | .error e => .error e
  | .ok (maps1, dock1) =>
    match analyzePathStep2 env localpath context devfileRegistryURL maps1
        isDevfilePresent dock1 token with
    | .error e => .error e
    | .ok (maps2, dock2) =>
      analyzePathStep3 env localpath context devfileRegistryURL maps2
        isDevfilePresent dock2

/-- The state threaded through one context's directory listing:
the four maps plus the `isDevfilePresent` / `isDockerfilePresent` flags. -/
abbrev CtxState := Maps × Bool × Bool

/-- The inner loop over `.devfile/`'s listing: every entry whose lowercased
name is one of the four manifest names is link-resolved and validated
(a validation failure aborts as `InvalidDevfile`; an ignore-sentinel
resets the devfile flag, a kept devfile records bytes and link). -/
def hiddenFold (env : Env) (repoURL revision token : String)
    (hiddenDirPath context : String) :
    List FSEntry → CtxState → Except GoErr CtxState
  | [], st => .ok st
  | f :: rest, st =>
    let lowerCaseFileName := strToLower f.name
    let step : Except GoErr CtxState :=
      if lowerCaseFileName = Devfile ∨ lowerCaseFileName = HiddenDevfile ∨
          lowerCaseFileName = DevfileYml ∨
          lowerCaseFileName = HiddenDirDevfileYml then
        let devfilePath := pathJoin hiddenDirPath f.name
        match env.updateGitLink repoURL revision
            (pathJoin (pathJoin context HiddenDevfileDir) f.name) with
        | .error e => .error e
        | .ok updatedLink =>
          match env.validateDevfile devfilePath token with
          | .error e => .error (GoErr.invalidDevfile e)
          | .ok (shouldIgnoreDevfile, devfileBytes) =>
            if shouldIgnoreDevfile then
              .ok (st.1, false, st.2.2)
            else
              let dm := mapSet st.1.devfileMapFromRepo context devfileBytes
              let um := mapSet st.1.devfilesURLMapFromRepo context updatedLink
              .ok ({ st.1 with devfileMapFromRepo := dm, devfilesURLMapFromRepo := um },
                true, st.2.2)
      else .ok st
    match step with
    | .error e => .error e
    | .ok st' => hiddenFold env repoURL revision token hiddenDirPath context
        rest st'

/-- The inner loop over a recognized build directory's listing: every
entry whose lowercased name is `dockerfile` or `containerfile` records the
joined relative path and sets the Dockerfile flag. -/
def dockerDirFold (context dirName : String) :
    List FSEntry → Maps × Bool → Maps × Bool
  | [], st => st
  | f :: rest, st =>
    let lowerCaseFileName := strToLower f.name
    let st' :=
      if lowerCaseFileName = strToLower DockerfileName ∨
          lowerCaseFileName = strToLower ContainerfileName then
        let d1 := mapSet st.1.dockerfileContextMapFromRepo context (pathJoin dirName f.name)
        ({ st.1 with dockerfileContextMapFromRepo := d1 }, true)
      else st
    dockerDirFold context dirName rest st'

/-- One entry of a context's direct listing, mirroring the branch chain of
`search`'s inner loop: flat manifest names, the hidden `.devfile`
directory, flat `Dockerfile`/`Containerfile` (case-insensitive), and the
three recognized build directories (case-sensitive). -/
def processEntry (env : Env) (repoURL revision token : String)
    (curPath context : String) (st : CtxState) (f : FSEntry) :
    Except GoErr CtxState :=
  let lowerCaseFileName := strToLower f.name
  if lowerCaseFileName = Devfile ∨ lowerCaseFileName = HiddenDevfile ∨
      lowerCaseFileName = DevfileYml ∨
      lowerCaseFileName = HiddenDirDevfileYml then
    let devfilePath := pathJoin curPath f.name
    match env.updateGitLink repoURL revision
        (pathJoin context f.name) with
    | .error e => .error e
    | .ok updatedLink =>
      match env.validateDevfile devfilePath token with
      | .error e => .error (GoErr.invalidDevfile e)
      | .ok (shouldIgnoreDevfile, devfileBytes) =>
        if shouldIgnoreDevfile then
          .ok (st.1, false, st.2.2)
        else
          let dm := mapSet st.1.devfileMapFromRepo context devfileBytes
          let um := mapSet st.1.devfilesURLMapFromRepo context updatedLink
          .ok ({ st.1 with devfileMapFromRepo := dm, devfilesURLMapFromRepo := um },
            true, st.2.2)
  else if f.isDir ∧ f.name = HiddenDevfileDir then
    hiddenFold env repoURL revision token (pathJoin curPath HiddenDevfileDir)
      context f.children st
  else if lowerCaseFileName = strToLower DockerfileName then
    let d1 := mapSet st.1.dockerfileContextMapFromRepo context f.name
    .ok ({ st.1 with dockerfileContextMapFromRepo := d1 }, st.2.1, true)
  else if lowerCaseFileName = strToLower ContainerfileName then
    let d1 := mapSet st.1.dockerfileContextMapFromRepo context ContainerfileName
    .ok ({ st.1 with dockerfileContextMapFromRepo := d1 }, st.2.1, true)
  else if f.isDir ∧ (f.name = DockerDir ∨ f.name = HiddenDockerDir ∨
      f.name = BuildDir) then
    let r := dockerDirFold context f.name f.children (st.1, st.2.2)
    .ok (r.1, st.2.1, r.2)
  else .ok st

/-- The fold of `processEntry` over a context's direct listing. -/
def contextFold (env : Env) (repoURL revision token : String)
    (curPath context : String) :
    List FSEntry → CtxState → Except GoErr CtxState
  | [], st => .ok st
  | f :: rest, st =>
    match processEntry env repoURL revision token curPath context st f with
    | .error e => .error e
    | .ok st' =>
      contextFold env repoURL revision token curPath context rest st'

/-- The per-context body of `search`'s outer loop (for a sub-directory
entry): scan the listing, drop the Dockerfile entry when both a devfile
and a Dockerfile were found, and invoke `AnalyzePath` under the source's
guard. -/
def processContext (env : Env) (localpath srcContext : String)
    (cdqInfo : CDQInfoClient) (maps : Maps) (f : FSEntry) :
    Except GoErr Maps :=
  let curPath := pathJoin localpath f.name
  let context := pathJoin srcContext f.name
  match contextFold env cdqInfo.gitURL.repoURL cdqInfo.gitURL.revision
      cdqInfo.gitURL.token curPath context f.children
      (maps, false, false) with
  | .error e => .error e
  | .ok (m, isDevfilePresent, isDockerfilePresent) =>
    let m2 :=
      if isDevfilePresent && isDockerfilePresent then
        let d1 := mapDelete m.dockerfileContextMapFromRepo context
        { m with dockerfileContextMapFromRepo := d1 }
      else m
    let isDockerfilePresent2 :=
      if isDevfilePresent && isDockerfilePresent then false
      else isDockerfilePresent
    if (!isDevfilePresent && !isDockerfilePresent2) ||
        (isDevfilePresent && !isDockerfilePresent2) then
      AnalyzePath env curPath context cdqInfo.devfileRegistryURL m2
        isDevfilePresent isDockerfilePresent2 cdqInfo.gitURL.token
    else .ok m2

/-- `search`'s outer loop over the root listing: only directory entries
become contexts; any per-context error aborts the whole scan. -/
def searchLoop (env : Env) (localpath srcContext : String)
    (cdqInfo : CDQInfoClient) : List FSEntry → Maps → Except GoErr Maps
  | [], maps => .ok maps
  | f :: rest, maps =>
    if f.isDir then
      match processContext env localpath srcContext cdqInfo maps f with
      | .error e => .error e
      | .ok maps' => searchLoop env localpath srcContext cdqInfo rest maps'
    else searchLoop env localpath srcContext cdqInfo rest maps

/-- `search`: scan every immediate sub-directory of the root listing.
An error carries no maps (the source returns `nil` for all four maps on
every error path); on success the four accumulated maps are returned
(the "nothing found" outcome is only logged and not an error). -/
def search (env : Env) (localpath srcContext : String)
    (cdqInfo : CDQInfoClient) (rootEntries : List FSEntry) :
    Except GoErr Maps :=
  searchLoop env localpath srcContext cdqInfo rootEntries emptyMaps

/-! ### Basic lemmas about the map operations -/

@[simp] theorem mapSet_apply {α : Type} (m : String → Option α) (k : String)
    (v : α) (x : String) : mapSet m k v x = if x = k then some v else m x :=
  rfl

@[simp] theorem mapDelete_apply {α : Type} (m : String → Option α)
    (k : String) (x : String) :
    mapDelete m k x = if x = k then none else m x :=
  rfl

/-- A concrete, fully trivial environment used to instantiate theorems with
hypotheses at concrete inputs. -/
def env0 : Env :=
  { updateGitLink := fun _ _ _ => .ok ""
    validateDevfile := fun _ _ => .ok (false, [])
    parseDevfileData := fun _ _ => .ok ⟨.ok []⟩
    parseDevfileURL := fun _ => .ok ⟨.ok []⟩
    yamlMarshal := fun _ => .ok []
    getAlizerDevfileTypes := fun _ => .ok []
    detectComponents := fun _ => .ok []
    selectDevFileFromTypes := fun _ _ => (emptyDevfileType, none)
    getRepoFromRegistry := fun _ _ => .ok "" }

/-! ### Claim C10 -/

/-- Claim C10: calling `SearchForDockerfile` with an empty devfile byte
slice returns nil for both the image and the error, for every environment
(in particular for one whose parser always fails, so no parse is
attempted) and every token. -/
theorem searchForDockerfile_empty_bytes (env : Env) (token : String) :
    SearchForDockerfile env [] token = .ok none :=
  rfl

/-! ### Claim C7 -/

/-- Step 1 never touches the devfile, URL or port maps, and touches the
Dockerfile map only at this context. -/
theorem analyzePathStep1_frame (env : Env) (context : String) (maps : Maps)
    (d k : Bool) (token : String) (m1 : Maps) (d1 : Bool)
    (h : analyzePathStep1 env context maps d k token = .ok (m1, d1)) :
    m1.devfileMapFromRepo = maps.devfileMapFromRepo ∧
    m1.devfilesURLMapFromRepo = maps.devfilesURLMapFromRepo ∧
    m1.componentPortsMapFromRepo = maps.componentPortsMapFromRepo ∧
    ∀ x, x ≠ context →
      m1.dockerfileContextMapFromRepo x =
        maps.dockerfileContextMapFromRepo x := by
  unfold analyzePathStep1 at h
  simp only [] at h
  repeat' split at h
  all_goals try exact Except.noConfusion h
  all_goals
    injection h with h
  all_goals
    injection h with h1 h2
  all_goals subst h1
  all_goals exact ⟨rfl, rfl, rfl, fun x hx => by simp [hx]⟩

/-- With a local devfile present, step 2 never touches the devfile or URL
maps, and touches the Dockerfile and port maps only at this context. -/
theorem analyzePathStep2_frame_devfile (env : Env)
    (localpath context devfileRegistryURL : String) (maps1 : Maps)
    (k : Bool) (token : String) (m2 : Maps) (d2 : Bool)
    (h : analyzePathStep2 env localpath context devfileRegistryURL maps1
      true k token = .ok (m2, d2)) :
    m2.devfileMapFromRepo = maps1.devfileMapFromRepo ∧
    m2.devfilesURLMapFromRepo = maps1.devfilesURLMapFromRepo ∧
    ∀ x, x ≠ context →
      m2.dockerfileContextMapFromRepo x =
        maps1.dockerfileContextMapFromRepo x ∧
      m2.componentPortsMapFromRepo x = maps1.componentPortsMapFromRepo x := by
  unfold analyzePathStep2 at h
  simp only [] at h
  repeat' split at h
  all_goals try exact Except.noConfusion h
  all_goals try (exfalso; simp_all; done)
  all_goals
    injection h with h
  all_goals
    injection h with h1 h2
  all_goals subst h1
  all_goals exact ⟨rfl, rfl, fun x hx => by simp [hx]⟩

/-- Step 3 never touches the devfile, URL or Dockerfile maps, and touches
the port map only at this context. -/
theorem analyzePathStep3_frame (env : Env)
    (localpath context devfileRegistryURL : String) (maps2 : Maps)
    (d k : Bool) (m' : Maps)
    (h : analyzePathStep3 env localpath context devfileRegistryURL maps2
      d k = .ok m') :
    m'.devfileMapFromRepo = maps2.devfileMapFromRepo ∧
    m'.devfilesURLMapFromRepo = maps2.devfilesURLMapFromRepo ∧
    m'.dockerfileContextMapFromRepo = maps2.dockerfileContextMapFromRepo ∧
    ∀ x, x ≠ context →
      m'.componentPortsMapFromRepo x = maps2.componentPortsMapFromRepo x := by
  unfold analyzePathStep3 at h
  simp only [] at h
  repeat' split at h
  all_goals injection h with h
  all_goals subst h
  all_goals exact ⟨rfl, rfl, rfl, fun x hx => by simp [hx]⟩

/-- Claim C7: when `AnalyzePath` runs for a context whose valid local
manifest was discovered (`isDevfilePresent = true`, exactly how `search`
invokes it for such a context), the devfile-bytes and devfile-URL maps of
the result are exactly the input ones — catalog output never replaces
them — and the Dockerfile and port maps are unchanged at every key other
than this context. -/
theorem analyzePath_preserves_local_manifest (env : Env)
    (localpath context devfileRegistryURL : String) (maps : Maps)
    (isDockerfilePresent : Bool) (token : String) (m' : Maps)
    (h : AnalyzePath env localpath context devfileRegistryURL maps true
      isDockerfilePresent token = .ok m') :
    m'.devfileMapFromRepo = maps.devfileMapFromRepo ∧
    m'.devfilesURLMapFromRepo = maps.devfilesURLMapFromRepo ∧
    ∀ x, x ≠ context →
      m'.dockerfileContextMapFromRepo x =
        maps.dockerfileContextMapFromRepo x ∧
      m'.componentPortsMapFromRepo x = maps.componentPortsMapFromRepo x := by
  unfold AnalyzePath at h
  split at h
  · exact Except.noConfusion h
  case h_2 r maps1 dock1 heq1 =>
    split at h
    · exact Except.noConfusion h
    case h_2 r2 maps2 dock2 heq2 =>
      obtain ⟨e1, e2, e3, e4⟩ := analyzePathStep1_frame env context maps true
        isDockerfilePresent token maps1 dock1 heq1
      obtain ⟨f1, f2, f3⟩ := analyzePathStep2_frame_devfile env localpath
        context devfileRegistryURL maps1 dock1 token maps2 dock2 heq2
      obtain ⟨g1, g2, g3, g4⟩ := analyzePathStep3_frame env localpath context
        devfileRegistryURL maps2 true dock2 m' h
      refine ⟨g1.trans (f1.trans e1), g2.trans (f2.trans e2), fun x hx => ?_⟩
      obtain ⟨f3a, f3b⟩ := f3 x hx
      constructor
      · rw [g3]
        exact f3a.trans (e4 x hx)
      · rw [g4 x hx, f3b]
        rw [e3]

theorem analyzePath_preserves_local_manifest_witness :
    AnalyzePath env0 "p" "c" "r" emptyMaps true false "t" = .ok emptyMaps ∧
    (emptyMaps.devfileMapFromRepo = emptyMaps.devfileMapFromRepo ∧
     emptyMaps.devfilesURLMapFromRepo = emptyMaps.devfilesURLMapFromRepo ∧
     ∀ x, x ≠ "c" →
       emptyMaps.dockerfileContextMapFromRepo x =
         emptyMaps.dockerfileContextMapFromRepo x ∧
       emptyMaps.componentPortsMapFromRepo x =
         emptyMaps.componentPortsMapFromRepo x) :=
  ⟨rfl, analyzePath_preserves_local_manifest env0 "p" "c" "r" emptyMaps
    false "t" emptyMaps rfl⟩

/-! ### Claim C8 -/

/-- An image component that `SearchForDockerfile`'s loop accepts: non-nil
image, non-nil Dockerfile, non-empty URI. -/
def hasUsableDockerfile (c : ImageComponent) : Prop :=
  ∃ u d, c.image = some u ∧ u.dockerfile = some d ∧ d.uri ≠ ""

theorem findFirstDockerfile_first (p q : List ImageComponent)
    (c : ImageComponent) (u : ImageUnion) (d : DockerfileImage)
    (hpre : ∀ c0 ∈ p, ¬ hasUsableDockerfile c0)
    (hu : c.image = some u) (hd : u.dockerfile = some d)
    (hne : d.uri ≠ "") :
    findFirstDockerfile (p ++ c :: q) = some d := by
  induction p with
  | nil =>
    simp only [List.nil_append, findFirstDockerfile, hu, hd]
    rw [if_pos hne]
  | cons a p ih =>
    have ha : ¬ hasUsableDockerfile a := hpre a (List.mem_cons_self a p)
    have hrest : ∀ c0 ∈ p, ¬ hasUsableDockerfile c0 :=
      fun c0 hc0 => hpre c0 (List.mem_cons_of_mem a hc0)
    simp only [List.cons_append, findFirstDockerfile]
    match ha1 : a.image with
    | none => simp only []; exact ih hrest
    | some u1 =>
      simp only []
      match ha2 : u1.dockerfile with
      | none => simp only []; exact ih hrest
      | some d1 =>
        simp only []
        have hd1 : ¬ d1.uri ≠ "" := fun hne1 => ha ⟨u1, d1, ha1, ha2, hne1⟩
        rw [if_neg hd1]
        exact ih hrest

/-- Claim C8: when the context's devfile declares an embedded build file,
`AnalyzePath` (invoked as `search` does after discovering a valid devfile
and no on-disk build file) records the Dockerfile entry for the context
exactly when the URI of the first image component with a non-empty
Dockerfile URI has the network prefix "http"; a relative URI leaves the
maps untouched. -/
theorem embedded_dockerfile_recorded_iff_http (env : Env)
    (localpath context devfileRegistryURL : String) (maps : Maps)
    (token : String) (bytes : Bytes) (data : DevfileData)
    (p q : List ImageComponent) (c : ImageComponent) (u : ImageUnion)
    (d : DockerfileImage)
    (hb : maps.devfileMapFromRepo context = some bytes)
    (hne : bytes ≠ [])
    (hp : env.parseDevfileData bytes token = .ok data)
    (hcomps : data.imageComponents = .ok (p ++ c :: q))
    (hpre : ∀ c0 ∈ p, ¬ hasUsableDockerfile c0)
    (hu : c.image = some u) (hd : u.dockerfile = some d)
    (hne2 : d.uri ≠ "") :
    AnalyzePath env localpath context devfileRegistryURL maps true false
      token =
      (if strStartsWith d.uri "http" then
        .ok { maps with dockerfileContextMapFromRepo := mapSet maps.dockerfileContextMapFromRepo context d.uri }
      else .ok maps) := by
  have hfind : findFirstDockerfile (p ++ c :: q) = some d :=
    findFirstDockerfile_first p q c u d hpre hu hd hne2
  have hlen : ¬ bytes.length = 0 := by
    simpa using hne
  unfold AnalyzePath analyzePathStep1 SearchForDockerfile
  simp only [hb, Option.getD_some, if_pos rfl, if_true, if_neg hlen, hp,
    hcomps, hfind]
  by_cases hhttp : strStartsWith d.uri "http"
  · simp only [hhttp, if_true]
    unfold analyzePathStep2 analyzePathStep3
    simp
  · simp only [hhttp, if_false]
    unfold analyzePathStep2 analyzePathStep3
    simp

def envC8 : Env := { env0 with parseDevfileData := fun _ _ => .ok ⟨.ok [⟨some ⟨some ⟨"http://x/Df"⟩⟩⟩]⟩ }

def mapsC8 : Maps := { emptyMaps with devfileMapFromRepo := mapSet emptyMaps.devfileMapFromRepo "c" [1] }

theorem embedded_dockerfile_recorded_iff_http_witness :
    mapsC8.devfileMapFromRepo "c" = some [1] ∧
    AnalyzePath envC8 "p" "c" "r" mapsC8 true false "t" =
      (if strStartsWith "http://x/Df" "http" then
        .ok { mapsC8 with dockerfileContextMapFromRepo := mapSet mapsC8.dockerfileContextMapFromRepo "c" "http://x/Df" }
      else .ok mapsC8) :=
  ⟨rfl,
   embedded_dockerfile_recorded_iff_http envC8 "p" "c" "r" mapsC8 "t" [1]
    ⟨.ok [⟨some ⟨some ⟨"http://x/Df"⟩⟩⟩]⟩
    [] [] ⟨some ⟨some ⟨"http://x/Df"⟩⟩⟩ ⟨some ⟨"http://x/Df"⟩⟩
    ⟨"http://x/Df"⟩
    rfl (by simp) rfl rfl (by simp) rfl rfl (by simp)⟩

/-! ### Scanning phase never touches the port map -/

theorem hiddenFold_ports (env : Env) (repoURL revision token : String)
    (hiddenDirPath context : String) (l : List FSEntry) (st : CtxState)
    (st' : CtxState)
    (h : hiddenFold env repoURL revision token hiddenDirPath context l st =
      .ok st') :
    st'.1.componentPortsMapFromRepo = st.1.componentPortsMapFromRepo := by
  induction l generalizing st with
  | nil =>
    unfold hiddenFold at h
    injection h with h
    subst h
    rfl
  | cons f rest ih =>
    unfold hiddenFold at h
    simp only [] at h
    split at h
    · exact Except.noConfusion h
    case h_2 st1 heq =>
      have h1 : st1.1.componentPortsMapFromRepo =
          st.1.componentPortsMapFromRepo := by
        repeat' split at heq
        all_goals try exact Except.noConfusion heq
        all_goals injection heq with heq
        all_goals subst heq
        all_goals rfl
      exact (ih st1 h).trans h1

theorem dockerDirFold_ports (context dirName : String) (l : List FSEntry)
    (st : Maps × Bool) :
    (dockerDirFold context dirName l st).1.componentPortsMapFromRepo =
      st.1.componentPortsMapFromRepo := by
  induction l generalizing st with
  | nil => rfl
  | cons f rest ih =>
    unfold dockerDirFold
    simp only []
    split
    · exact ih _
    · exact ih _

theorem processEntry_ports (env : Env) (repoURL revision token : String)
    (curPath context : String) (st : CtxState) (f : FSEntry)
    (st' : CtxState)
    (h : processEntry env repoURL revision token curPath context st f =
      .ok st') :
    st'.1.componentPortsMapFromRepo = st.1.componentPortsMapFromRepo := by
  unfold processEntry at h
  simp only [] at h
  split at h
  · repeat' split at h
    all_goals try exact Except.noConfusion h
    all_goals injection h with h
    all_goals subst h
    all_goals rfl
  · split at h
    · exact hiddenFold_ports env repoURL revision token
        (pathJoin curPath HiddenDevfileDir) context f.children st st' h
    · repeat' split at h
      all_goals injection h with h
      all_goals subst h
      all_goals try rfl
      exact dockerDirFold_ports context f.name f.children (st.1, st.2.2)

theorem contextFold_ports (env : Env) (repoURL revision token : String)
    (curPath context : String) (l : List FSEntry) (st : CtxState)
    (st' : CtxState)
    (h : contextFold env repoURL revision token curPath context l st =
      .ok st') :
    st'.1.componentPortsMapFromRepo = st.1.componentPortsMapFromRepo := by
  induction l generalizing st with
  | nil =>
    unfold contextFold at h
    injection h with h
    subst h
    rfl
  | cons f rest ih =>
    unfold contextFold at h
    split at h
    · exact Except.noConfusion h
    case h_2 st1 heq =>
      exact (ih st1 h).trans (processEntry_ports env repoURL revision token
        curPath context st f st1 heq)

/-! ### Claim C4 -/

/-- Claim C4 (amended): for a context whose directory scan found an
on-disk build file and no manifest, `search`'s guard skips `AnalyzePath`
entirely — the context's processing returns the scanned maps unchanged,
and in particular the port map is exactly the one the scanner recorded
(which the scan phase never writes), so no port entry is ever gained. -/
theorem dockerfileOnly_context_skips_fallback (env : Env)
    (localpath srcContext : String) (cdqInfo : CDQInfoClient) (maps : Maps)
    (Cname : String) (children : List FSEntry) (m' : Maps)
    (h : contextFold env cdqInfo.gitURL.repoURL cdqInfo.gitURL.revision
      cdqInfo.gitURL.token (pathJoin localpath Cname)
      (pathJoin srcContext Cname) children (maps, false, false) =
      .ok (m', false, true)) :
    processContext env localpath srcContext cdqInfo maps
      (.dir Cname children) = .ok m' ∧
    m'.componentPortsMapFromRepo = maps.componentPortsMapFromRepo := by
  constructor
  · unfold processContext
    simp only [FSEntry.name, FSEntry.children]
    rw [h]
    simp
  · exact contextFold_ports env cdqInfo.gitURL.repoURL
      cdqInfo.gitURL.revision cdqInfo.gitURL.token
      (pathJoin localpath Cname) (pathJoin srcContext Cname) children
      (maps, false, false) (m', false, true) h

def cdq0 : CDQInfoClient := ⟨⟨"https://git/repo", "main", "tok"⟩, "https://registry"⟩

def mapsC4 : Maps := { emptyMaps with dockerfileContextMapFromRepo := mapSet emptyMaps.dockerfileContextMapFromRepo (pathJoin "s" "comp") "Dockerfile" }

theorem dockerfileOnly_context_skips_fallback_witness :
    contextFold env0 cdq0.gitURL.repoURL cdq0.gitURL.revision
      cdq0.gitURL.token (pathJoin "r" "comp") (pathJoin "s" "comp")
      [.file "Dockerfile"] (emptyMaps, false, false) =
      .ok (mapsC4, false, true) ∧
    (processContext env0 "r" "s" cdq0 emptyMaps
      (.dir "comp" [.file "Dockerfile"]) = .ok mapsC4 ∧
     mapsC4.componentPortsMapFromRepo = emptyMaps.componentPortsMapFromRepo) :=
  ⟨rfl, dockerfileOnly_context_skips_fallback env0 "r" "s" cdq0 emptyMaps
    "comp" [.file "Dockerfile"] mapsC4 rfl⟩

/-- An environment whose classifier reports a component with ports
`[8080]` and whose catalog lookups all succeed with a non-empty sample
devfile: fallback detection, if invoked, would certainly harvest ports. -/
def envC4 : Env :=
  { updateGitLink := fun _ _ _ => .ok "https://link"
    validateDevfile := fun _ _ => .ok (false, [1])
    parseDevfileData := fun _ _ => .ok ⟨.ok []⟩
    parseDevfileURL := fun _ => .ok ⟨.ok []⟩
    yamlMarshal := fun _ => .ok [9]
    getAlizerDevfileTypes := fun _ => .ok [⟨"java", "java", "", []⟩]
    detectComponents := fun _ => .ok [⟨[⟨true⟩], some [8080]⟩]
    selectDevFileFromTypes := fun _ _ => (⟨"java", "java", "", []⟩, none)
    getRepoFromRegistry := fun _ _ => .ok "https://sample.repo" }

/-- Claim C4 fails on the code: for a context holding only a top-level
Dockerfile, `search` returns the scanner's build-file entry but no port
entry at all, even though the very same environment would yield ports
`[8080]` if `AnalyzePath` were invoked for the context with
manifest-absent/build-file-present flags as the claim describes. -/
theorem dockerfileOnly_context_ports_cex :
    (match search envC4 "r" "s" cdq0 [.dir "comp" [.file "Dockerfile"]] with
     | .ok m => (m.componentPortsMapFromRepo "s/comp",
        m.dockerfileContextMapFromRepo "s/comp")
     | .error _ => (none, none)) = (none, some "Dockerfile") ∧
    (match AnalyzePath envC4 (pathJoin "r" "comp") (pathJoin "s" "comp")
        cdq0.devfileRegistryURL mapsC4 false true cdq0.gitURL.token with
     | .ok m => m.componentPortsMapFromRepo "s/comp"
     | .error _ => none) = some [8080] := by
  constructor
  · decide
  · decide

/-! ### Claim C2 -/

/-- An environment whose parser finds an absolute (http) embedded
Dockerfile reference in every devfile. -/
def envC2 : Env :=
  { updateGitLink := fun _ _ p => .ok ("https://gh/" ++ p)
    validateDevfile := fun _ _ => .ok (false, [1, 2])
    parseDevfileData := fun _ _ => .ok ⟨.ok [⟨some ⟨some ⟨"http://reg/Df"⟩⟩⟩]⟩
    parseDevfileURL := fun _ => .ok ⟨.ok []⟩
    yamlMarshal := fun _ => .ok [9]
    getAlizerDevfileTypes := fun _ => .ok [⟨"java", "java", "", []⟩]
    detectComponents := fun _ => .ok []
    selectDevFileFromTypes := fun _ _ => (⟨"java", "java", "", []⟩, none)
    getRepoFromRegistry := fun _ _ => .ok "https://sample.repo" }

/-- Claim C2 fails on the code: in a context where both a valid manifest
and an on-disk Dockerfile are discovered, the scanned entry is indeed
deleted, but `AnalyzePath` then re-adds a build-file entry from the
manifest's embedded http reference, so the resulting build-file map does
have an entry for the context. -/
theorem both_found_entry_reappears_cex :
    (match search envC2 "r" "s" cdq0
        [.dir "comp" [.file "devfile.yaml", .file "Dockerfile"]] with
     | .ok m => m.dockerfileContextMapFromRepo "s/comp"
     | .error _ => none) = some "http://reg/Df" := by decide

/-- Claim C2 (amended): in a context where both a valid manifest and an
on-disk build file are discovered, the scanner's build-file entry is
deleted before fallback runs; when the manifest declares no embedded
build-file reference and fallback detection reports nothing, the
resulting build-file map has no entry for the context (while the manifest
entries survive).  An entry can only reappear from the manifest's own
embedded http reference or from a registry match, never from the on-disk
discovery. -/
theorem both_found_dockerfile_entry_deleted (env : Env)
    (localpath srcContext : String) (cdqInfo : CDQInfoClient)
    (Cname mname dname link : String) (bytes : Bytes) (data : DevfileData)
    (comps : List ImageComponent) (types : List DevfileType)
    (hm : strToLower mname = Devfile)
    (hdk : strToLower dname = "dockerfile")
    (hlink : env.updateGitLink cdqInfo.gitURL.repoURL cdqInfo.gitURL.revision
      (pathJoin (pathJoin srcContext Cname) mname) = .ok link)
    (hval : env.validateDevfile (pathJoin (pathJoin localpath Cname) mname)
      cdqInfo.gitURL.token = .ok (false, bytes))
    (hb : bytes ≠ [])
    (hparse : env.parseDevfileData bytes cdqInfo.gitURL.token = .ok data)
    (hcomps : data.imageComponents = .ok comps)
    (hnone : findFirstDockerfile comps = none)
    (htypes : env.getAlizerDevfileTypes cdqInfo.devfileRegistryURL =
      .ok types)
    (hdetect : env.detectComponents (pathJoin localpath Cname) = .ok []) :
    ∃ m, search env localpath srcContext cdqInfo
        [.dir Cname [.file mname, .file dname]] = .ok m ∧
      m.dockerfileContextMapFromRepo (pathJoin srcContext Cname) = none ∧
      m.devfileMapFromRepo (pathJoin srcContext Cname) = some bytes ∧
      m.devfilesURLMapFromRepo (pathJoin srcContext Cname) = some link := by
  have hlen : ¬ bytes.length = 0 := by simpa using hb
  have hnd : ¬ (strToLower dname = Devfile ∨ strToLower dname = HiddenDevfile ∨
      strToLower dname = DevfileYml ∨ strToLower dname = HiddenDirDevfileYml) := by
    rw [hdk]
    decide
  unfold search searchLoop processContext contextFold
  simp only [FSEntry.isDir, FSEntry.name, FSEntry.children, if_true]
  unfold processEntry
  simp only [FSEntry.isDir, FSEntry.name, FSEntry.children, hm]
  rw [if_pos (Or.inl trivial)]
  simp only [hlink, hval]
  rw [if_neg (by simp)]
  unfold contextFold
  unfold processEntry
  simp only [FSEntry.isDir, FSEntry.name, FSEntry.children]
  rw [if_neg hnd]
  rw [if_neg (by simp)]
  rw [if_pos (by rw [hdk]; decide)]
  unfold contextFold
  unfold searchLoop
  simp only []
  rw [if_pos (by decide)]
  rw [if_pos (by decide)]
  unfold AnalyzePath analyzePathStep1
  rw [if_pos rfl]
  simp only [mapSet_apply, mapDelete_apply, if_pos rfl, eq_self_iff_true, if_true, ite_true, Option.getD_some]
  unfold SearchForDockerfile
  rw [if_neg hlen]
  simp only [hparse, hcomps, hnone]
  unfold analyzePathStep2 AnalyzeAndDetectDevfile
  simp only [htypes, hdetect, Bool.not_false, if_true]
  unfold analyzePathStep3
  simp only [Bool.not_true, Bool.false_and, if_false]
  refine ⟨_, rfl, ?_, ?_, ?_⟩
  · simp
  · simp
  · simp

def envC2W : Env :=
  { updateGitLink := fun _ _ _ => .ok "L"
    validateDevfile := fun _ _ => .ok (false, [1, 2])
    parseDevfileData := fun _ _ => .ok ⟨.ok []⟩
    parseDevfileURL := fun _ => .ok ⟨.ok []⟩
    yamlMarshal := fun _ => .ok []
    getAlizerDevfileTypes := fun _ => .ok []
    detectComponents := fun _ => .ok []
    selectDevFileFromTypes := fun _ _ => (emptyDevfileType, none)
    getRepoFromRegistry := fun _ _ => .ok "" }

theorem both_found_dockerfile_entry_deleted_witness :
    strToLower "devfile.yaml" = Devfile ∧
    ∃ m, search envC2W "r" "s" cdq0
        [.dir "comp" [.file "devfile.yaml", .file "Dockerfile"]] = .ok m ∧
      m.dockerfileContextMapFromRepo (pathJoin "s" "comp") = none ∧
      m.devfileMapFromRepo (pathJoin "s" "comp") = some [1, 2] ∧
      m.devfilesURLMapFromRepo (pathJoin "s" "comp") = some "L" :=
  ⟨rfl, both_found_dockerfile_entry_deleted envC2W "r" "s" cdq0 "comp"
    "devfile.yaml" "Dockerfile" "L" [1, 2] ⟨.ok []⟩ [] []
    rfl rfl rfl rfl (by decide) rfl rfl rfl rfl rfl⟩

/-! ### Claim C3 -/

/-- A context directory with an empty listing, in an environment whose
classifier reports no components there, leaves the maps untouched:
fallback detection fails with `NoDevfileFound`, which is swallowed. -/
theorem processContext_empty_noLanguages (env : Env)
    (localpath srcContext : String) (cdqInfo : CDQInfoClient) (maps : Maps)
    (Bname : String) (types : List DevfileType)
    (htypes : env.getAlizerDevfileTypes cdqInfo.devfileRegistryURL =
      .ok types)
    (hdetect : env.detectComponents (pathJoin localpath Bname) = .ok []) :
    processContext env localpath srcContext cdqInfo maps (.dir Bname []) =
      .ok maps := by
  unfold processContext contextFold AnalyzePath analyzePathStep1
    analyzePathStep2 AnalyzeAndDetectDevfile analyzePathStep3
  simp [FSEntry.name, FSEntry.children, htypes, hdetect]

/-- A context directory holding exactly one valid manifest whose parsed
content declares an absolute (http) embedded Dockerfile reference records
the manifest bytes, the resolved link and the embedded URI, and runs no
fallback detection. -/
theorem processContext_devfile_httpRef (env : Env)
    (localpath srcContext : String) (cdqInfo : CDQInfoClient) (maps : Maps)
    (Aname link : String) (bytes : Bytes) (data : DevfileData)
    (comps : List ImageComponent) (img : DockerfileImage)
    (hlink : env.updateGitLink cdqInfo.gitURL.repoURL cdqInfo.gitURL.revision
      (pathJoin (pathJoin srcContext Aname) "devfile.yaml") = .ok link)
    (hval : env.validateDevfile (pathJoin (pathJoin localpath Aname)
      "devfile.yaml") cdqInfo.gitURL.token = .ok (false, bytes))
    (hb : bytes ≠ [])
    (hparse : env.parseDevfileData bytes cdqInfo.gitURL.token = .ok data)
    (hcomps : data.imageComponents = .ok comps)
    (hfind : findFirstDockerfile comps = some img)
    (hhttp : strStartsWith img.uri "http" = true) :
    processContext env localpath srcContext cdqInfo maps
      (.dir Aname [.file "devfile.yaml"]) =
      .ok { maps with
        devfileMapFromRepo := mapSet maps.devfileMapFromRepo (pathJoin srcContext Aname) bytes,
        devfilesURLMapFromRepo := mapSet maps.devfilesURLMapFromRepo (pathJoin srcContext Aname) link,
        dockerfileContextMapFromRepo := mapSet maps.dockerfileContextMapFromRepo (pathJoin srcContext Aname) img.uri } := by
  have hlen : ¬ bytes.length = 0 := by simpa using hb
  unfold processContext contextFold processEntry
  simp only [FSEntry.isDir, FSEntry.name, FSEntry.children]
  rw [if_pos (Or.inl (show strToLower "devfile.yaml" = Devfile by decide))]
  simp only [hlink, hval]
  rw [if_neg (by simp)]
  unfold contextFold
  simp only [Bool.and_false, Bool.false_eq_true, if_false, ite_false]
  rw [if_pos (by decide)]
  unfold AnalyzePath analyzePathStep1
  rw [if_pos rfl]
  simp only [mapSet_apply, if_pos rfl, eq_self_iff_true, if_true, ite_true,
    Option.getD_some]
  unfold SearchForDockerfile
  rw [if_neg hlen]
  simp only [hparse, hcomps, hfind, hhttp]
  unfold analyzePathStep2 analyzePathStep3
  simp

/-- Claim C3: a context for which the classifier reports no components
fails fallback detection with `NoDevfileFound`, which `AnalyzePath`
swallows: that context gets no manifest, build-file or port entry, while
a sibling context with a valid manifest still populates normally and the
overall `search` returns without error. -/
theorem noLanguages_soft_fail_isolated (env : Env)
    (localpath srcContext : String) (cdqInfo : CDQInfoClient)
    (A B link : String) (bytes : Bytes) (data : DevfileData)
    (comps : List ImageComponent) (img : DockerfileImage)
    (types : List DevfileType)
    (hAB : pathJoin srcContext A ≠ pathJoin srcContext B)
    (hlink : env.updateGitLink cdqInfo.gitURL.repoURL cdqInfo.gitURL.revision
      (pathJoin (pathJoin srcContext A) "devfile.yaml") = .ok link)
    (hval : env.validateDevfile (pathJoin (pathJoin localpath A)
      "devfile.yaml") cdqInfo.gitURL.token = .ok (false, bytes))
    (hb : bytes ≠ [])
    (hparse : env.parseDevfileData bytes cdqInfo.gitURL.token = .ok data)
    (hcomps : data.imageComponents = .ok comps)
    (hfind : findFirstDockerfile comps = some img)
    (hhttp : strStartsWith img.uri "http" = true)
    (htypes : env.getAlizerDevfileTypes cdqInfo.devfileRegistryURL =
      .ok types)
    (hdetectB : env.detectComponents (pathJoin localpath B) = .ok []) :
    ∃ m, search env localpath srcContext cdqInfo
        [.dir A [.file "devfile.yaml"], .dir B []] = .ok m ∧
      m.devfileMapFromRepo (pathJoin srcContext B) = none ∧
      m.devfilesURLMapFromRepo (pathJoin srcContext B) = none ∧
      m.dockerfileContextMapFromRepo (pathJoin srcContext B) = none ∧
      m.componentPortsMapFromRepo (pathJoin srcContext B) = none ∧
      m.devfileMapFromRepo (pathJoin srcContext A) = some bytes ∧
      m.devfilesURLMapFromRepo (pathJoin srcContext A) = some link ∧
      m.dockerfileContextMapFromRepo (pathJoin srcContext A) = some img.uri := by
  have hsearch : search env localpath srcContext cdqInfo
      [.dir A [.file "devfile.yaml"], .dir B []] =
      .ok { emptyMaps with
        devfileMapFromRepo := mapSet emptyMaps.devfileMapFromRepo (pathJoin srcContext A) bytes,
        devfilesURLMapFromRepo := mapSet emptyMaps.devfilesURLMapFromRepo (pathJoin srcContext A) link,
        dockerfileContextMapFromRepo := mapSet emptyMaps.dockerfileContextMapFromRepo (pathJoin srcContext A) img.uri } := by
    unfold search searchLoop
    simp only [FSEntry.isDir, if_true, ite_true]
    rw [processContext_devfile_httpRef env localpath srcContext cdqInfo
      emptyMaps A link bytes data comps img hlink hval hb hparse hcomps
      hfind hhttp]
    simp only []
    unfold searchLoop
    simp only [FSEntry.isDir, if_true, ite_true]
    rw [processContext_empty_noLanguages env localpath srcContext cdqInfo _
      B types htypes hdetectB]
    rfl
  have hBA : ¬ (pathJoin srcContext B = pathJoin srcContext A) :=
    fun h => hAB h.symm
  refine ⟨_, hsearch, ?_, ?_, ?_, ?_, ?_, ?_, ?_⟩
  all_goals simp [emptyMaps, hBA]
def envC3 : Env :=
  { updateGitLink := fun _ _ _ => .ok "L"
    validateDevfile := fun _ _ => .ok (false, [1])
    parseDevfileData := fun _ _ => .ok ⟨.ok [⟨some ⟨some ⟨"http://x"⟩⟩⟩]⟩
    parseDevfileURL := fun _ => .ok ⟨.ok []⟩
    yamlMarshal := fun _ => .ok []
    getAlizerDevfileTypes := fun _ => .ok []
    detectComponents := fun _ => .ok []
    selectDevFileFromTypes := fun _ _ => (emptyDevfileType, none)
    getRepoFromRegistry := fun _ _ => .ok "" }

theorem noLanguages_soft_fail_isolated_witness :
    pathJoin "s" "a" ≠ pathJoin "s" "b" ∧
    ∃ m, search envC3 "r" "s" cdq0
        [.dir "a" [.file "devfile.yaml"], .dir "b" []] = .ok m ∧
      m.devfileMapFromRepo (pathJoin "s" "b") = none ∧
      m.devfilesURLMapFromRepo (pathJoin "s" "b") = none ∧
      m.dockerfileContextMapFromRepo (pathJoin "s" "b") = none ∧
      m.componentPortsMapFromRepo (pathJoin "s" "b") = none ∧
      m.devfileMapFromRepo (pathJoin "s" "a") = some [1] ∧
      m.devfilesURLMapFromRepo (pathJoin "s" "a") = some "L" ∧
      m.dockerfileContextMapFromRepo (pathJoin "s" "a") =
        some (DockerfileImage.mk "http://x").uri :=
  ⟨by decide, noLanguages_soft_fail_isolated envC3 "r" "s" cdq0 "a" "b" "L"
    [1] ⟨.ok [⟨some ⟨some ⟨"http://x"⟩⟩⟩]⟩ [⟨some ⟨some ⟨"http://x"⟩⟩⟩]
    ⟨"http://x"⟩ [] (by decide) rfl rfl (by decide) rfl rfl (by decide) rfl
    rfl rfl⟩

/-! ### Claim C5 -/

/-- `searchLoop` over an appended listing runs the two parts in
sequence. -/
theorem searchLoop_append (env : Env) (localpath srcContext : String)
    (cdqInfo : CDQInfoClient) (xs ys : List FSEntry) (maps : Maps) :
    searchLoop env localpath srcContext cdqInfo (xs ++ ys) maps =
      (match searchLoop env localpath srcContext cdqInfo xs maps with
       | .error e => .error e
       | .ok m' => searchLoop env localpath srcContext cdqInfo ys m') := by
  induction xs generalizing maps with
  | nil => rfl
  | cons f rest ih =>
    simp only [List.cons_append]
    simp only [searchLoop]
    by_cases hd : f.isDir = true
    · rw [if_pos hd, if_pos hd]
      cases hpc : processContext env localpath srcContext cdqInfo maps f with
      | error e => simp only [hpc]
      | ok m2 =>
        simp only [hpc]
        exact ih m2
    · rw [if_neg hd, if_neg hd]
      exact ih maps

/-- Scanning a context that holds exactly one manifest file classified as
an ignore-sentinel is the same as scanning the context with no manifest at
all: the per-context outcome is identical for every incoming map state. -/
theorem processContext_ignore_sentinel (env : Env)
    (localpath srcContext : String) (cdqInfo : CDQInfoClient) (maps : Maps)
    (Cname mname : String) (bytes : Bytes) (link : String)
    (hm : strToLower mname = Devfile ∨ strToLower mname = HiddenDevfile ∨
      strToLower mname = DevfileYml ∨ strToLower mname = HiddenDirDevfileYml)
    (hlink : env.updateGitLink cdqInfo.gitURL.repoURL cdqInfo.gitURL.revision
      (pathJoin (pathJoin srcContext Cname) mname) = .ok link)
    (hval : env.validateDevfile (pathJoin (pathJoin localpath Cname) mname)
      cdqInfo.gitURL.token = .ok (true, bytes)) :
    processContext env localpath srcContext cdqInfo maps
      (.dir Cname [.file mname]) =
    processContext env localpath srcContext cdqInfo maps (.dir Cname []) := by
  unfold processContext contextFold processEntry
  simp only [FSEntry.isDir, FSEntry.name, FSEntry.children]
  rw [if_pos hm]
  simp only [hlink, hval]
  rfl

/-- Claim C5: a manifest file that validates as an ignore-sentinel leaves
the context in the manifest-absent state for every downstream decision:
the whole scan result is identical to the scan of the same tree with the
manifest file removed (so no bytes or URL are recorded for it and
fallback detection fires exactly as if no manifest file existed). -/
theorem ignore_sentinel_same_as_absent (env : Env)
    (localpath srcContext : String) (cdqInfo : CDQInfoClient)
    (pre post : List FSEntry) (Cname mname : String) (bytes : Bytes)
    (link : String)
    (hm : strToLower mname = Devfile ∨ strToLower mname = HiddenDevfile ∨
      strToLower mname = DevfileYml ∨ strToLower mname = HiddenDirDevfileYml)
    (hlink : env.updateGitLink cdqInfo.gitURL.repoURL cdqInfo.gitURL.revision
      (pathJoin (pathJoin srcContext Cname) mname) = .ok link)
    (hval : env.validateDevfile (pathJoin (pathJoin localpath Cname) mname)
      cdqInfo.gitURL.token = .ok (true, bytes)) :
    search env localpath srcContext cdqInfo
      (pre ++ .dir Cname [.file mname] :: post) =
    search env localpath srcContext cdqInfo
      (pre ++ .dir Cname [] :: post) := by
  unfold search
  rw [searchLoop_append, searchLoop_append]
  cases hpre : searchLoop env localpath srcContext cdqInfo pre emptyMaps with
  | error e => rfl
  | ok m =>
    simp only []
    unfold searchLoop
    simp only [FSEntry.isDir, if_true, ite_true]
    rw [processContext_ignore_sentinel env localpath srcContext cdqInfo m
      Cname mname bytes link hm hlink hval]

def envC5 : Env :=
  { updateGitLink := fun _ _ _ => .ok "L"
    validateDevfile := fun _ _ => .ok (true, [7])
    parseDevfileData := fun _ _ => .ok ⟨.ok []⟩
    parseDevfileURL := fun _ => .ok ⟨.ok []⟩
    yamlMarshal := fun _ => .ok []
    getAlizerDevfileTypes := fun _ => .ok []
    detectComponents := fun _ => .ok []
    selectDevFileFromTypes := fun _ _ => (emptyDevfileType, none)
    getRepoFromRegistry := fun _ _ => .ok "" }

theorem ignore_sentinel_same_as_absent_witness :
    envC5.validateDevfile (pathJoin (pathJoin "r" "c") "devfile.yaml")
      cdq0.gitURL.token = .ok (true, [7]) ∧
    search envC5 "r" "s" cdq0 ([] ++ .dir "c" [.file "devfile.yaml"] :: []) =
      search envC5 "r" "s" cdq0 ([] ++ .dir "c" [] :: []) :=
  ⟨rfl, ignore_sentinel_same_as_absent envC5 "r" "s" cdq0 [] [] "c"
    "devfile.yaml" [7] "L" (by decide) rfl rfl⟩

/-! ### Claim C9 -/

/-- `contextFold` over an appended listing runs the two parts in
sequence. -/
theorem contextFold_append (env : Env) (repoURL revision token : String)
    (curPath context : String) (xs ys : List FSEntry) (st : CtxState) :
    contextFold env repoURL revision token curPath context (xs ++ ys) st =
      (match contextFold env repoURL revision token curPath context xs st with
       | .error e => .error e
       | .ok st' =>
         contextFold env repoURL revision token curPath context ys st') := by
  induction xs generalizing st with
  | nil => rfl
  | cons f rest ih =>
    simp only [List.cons_append]
    simp only [contextFold]
    cases hpe : processEntry env repoURL revision token curPath context st
        f with
    | error e => simp only [hpe]
    | ok st2 =>
      simp only [hpe]
      exact ih st2

/-- A manifest-named entry inside a recognized build directory is skipped
by the build-directory loop. -/
theorem dockerDirFold_skip_manifest (context dirName : String)
    (xs ys : List FSEntry) (m : String)
    (hm : strToLower m = Devfile ∨ strToLower m = HiddenDevfile ∨
      strToLower m = DevfileYml ∨ strToLower m = HiddenDirDevfileYml)
    (st : Maps × Bool) :
    dockerDirFold context dirName (xs ++ .file m :: ys) st =
      dockerDirFold context dirName (xs ++ ys) st := by
  have hmd : ¬ (strToLower m = strToLower DockerfileName ∨
      strToLower m = strToLower ContainerfileName) := by
    rcases hm with h | h | h | h <;> rw [h] <;> decide
  induction xs generalizing st with
  | nil =>
    simp only [List.nil_append]
    simp only [dockerDirFold, FSEntry.name]
    rw [if_neg hmd]
  | cons f rest ih =>
    simp only [List.cons_append]
    simp only [dockerDirFold]
    exact ih _

/-- Processing a sub-directory entry that is not the hidden manifest
directory never looks at a manifest-named file among its children: the
entry's outcome is unchanged when such a file is inserted. -/
theorem processEntry_deep_manifest_ignored (env : Env)
    (repoURL revision token curPath context : String) (st : CtxState)
    (Sname : String) (xs ys : List FSEntry) (m : String)
    (hS : Sname ≠ HiddenDevfileDir)
    (hm : strToLower m = Devfile ∨ strToLower m = HiddenDevfile ∨
      strToLower m = DevfileYml ∨ strToLower m = HiddenDirDevfileYml) :
    processEntry env repoURL revision token curPath context st
      (.dir Sname (xs ++ .file m :: ys)) =
    processEntry env repoURL revision token curPath context st
      (.dir Sname (xs ++ ys)) := by
  unfold processEntry
  simp only [FSEntry.isDir, FSEntry.name, FSEntry.children]
  by_cases h1 : (strToLower Sname = Devfile ∨ strToLower Sname = HiddenDevfile ∨
      strToLower Sname = DevfileYml ∨ strToLower Sname = HiddenDirDevfileYml)
  · rw [if_pos h1, if_pos h1]
  · rw [if_neg h1, if_neg h1]
    have h2 : ¬ (True ∧ Sname = HiddenDevfileDir) :=
      fun hc => hS hc.2
    rw [if_neg h2, if_neg h2]
    by_cases h3 : strToLower Sname = strToLower DockerfileName
    · rw [if_pos h3, if_pos h3]
    · rw [if_neg h3, if_neg h3]
      by_cases h4 : strToLower Sname = strToLower ContainerfileName
      · rw [if_pos h4, if_pos h4]
      · rw [if_neg h4, if_neg h4]
        by_cases h5 : (True ∧ (Sname = DockerDir ∨
            Sname = HiddenDockerDir ∨ Sname = BuildDir))
        · rw [if_pos h5, if_pos h5]
          rw [dockerDirFold_skip_manifest context Sname xs ys m hm]
        · rw [if_neg h5, if_neg h5]

/-- Claim C9: the scanner looks only at a context's direct listing plus
one level inside the recognized special directories; a manifest file
placed inside any other child directory `S` of a context (`S` not the
hidden manifest directory) is never discovered — the whole scan result is
identical with or without it. -/
theorem deep_manifest_never_discovered (env : Env)
    (localpath srcContext : String) (cdqInfo : CDQInfoClient)
    (pre post : List FSEntry) (Cname : String) (a b : List FSEntry)
    (Sname : String) (xs ys : List FSEntry) (m : String)
    (hS : Sname ≠ HiddenDevfileDir)
    (hm : strToLower m = Devfile ∨ strToLower m = HiddenDevfile ∨
      strToLower m = DevfileYml ∨ strToLower m = HiddenDirDevfileYml) :
    search env localpath srcContext cdqInfo
      (pre ++ .dir Cname (a ++ .dir Sname (xs ++ .file m :: ys) :: b)
        :: post) =
    search env localpath srcContext cdqInfo
      (pre ++ .dir Cname (a ++ .dir Sname (xs ++ ys) :: b) :: post) := by
  unfold search
  rw [searchLoop_append, searchLoop_append]
  cases hpre : searchLoop env localpath srcContext cdqInfo pre emptyMaps with
  | error e => rfl
  | ok m0 =>
    simp only []
    unfold searchLoop
    simp only [FSEntry.isDir, if_true, ite_true]
    have hpc : processContext env localpath srcContext cdqInfo m0
        (.dir Cname (a ++ .dir Sname (xs ++ .file m :: ys) :: b)) =
        processContext env localpath srcContext cdqInfo m0
        (.dir Cname (a ++ .dir Sname (xs ++ ys) :: b)) := by
      unfold processContext
      simp only [FSEntry.name, FSEntry.children]
      rw [contextFold_append, contextFold_append]
      cases ha : contextFold env cdqInfo.gitURL.repoURL
          cdqInfo.gitURL.revision cdqInfo.gitURL.token
          (pathJoin localpath Cname) (pathJoin srcContext Cname) a
          (m0, false, false) with
      | error e => rfl
      | ok st1 =>
        simp only []
        simp only [contextFold]
        rw [processEntry_deep_manifest_ignored env cdqInfo.gitURL.repoURL
          cdqInfo.gitURL.revision cdqInfo.gitURL.token
          (pathJoin localpath Cname) (pathJoin srcContext Cname) st1
          Sname xs ys m hS hm]
    rw [hpc]

def envC9 : Env := env0

theorem deep_manifest_never_discovered_witness :
    "docker" ≠ HiddenDevfileDir ∧
    search envC9 "r" "s" cdq0
      ([] ++ .dir "c" ([] ++ .dir "docker" ([] ++ .file "devfile.yaml" :: [])
        :: []) :: []) =
    search envC9 "r" "s" cdq0
      ([] ++ .dir "c" ([] ++ .dir "docker" ([] ++ []) :: []) :: []) :=
  ⟨by decide, deep_manifest_never_discovered envC9 "r" "s" cdq0 [] [] "c"
    [] [] "docker" [] [] "devfile.yaml" (by decide) (by decide)⟩

/-! ### Claim C1 -/

/-- A benign environment: every collaborator other than on-disk manifest
validation behaves (links resolve, devfile bytes parse, registry types
load, and the classifier finds nothing, so fallback is a soft no-op).
Under such an environment the only error `search` can produce is an
`InvalidDevfile` from a manifest that fails validation. -/
structure EnvBenign (env : Env) : Prop where
  link_ok : ∀ u r p, ∃ s, env.updateGitLink u r p = .ok s
  parse_ok : ∀ b t, ∃ d comps, env.parseDevfileData b t = .ok d ∧
    d.imageComponents = .ok comps
  types_ok : ∀ r, ∃ ts, env.getAlizerDevfileTypes r = .ok ts
  detect_empty : ∀ p, env.detectComponents p = .ok []

theorem benign_searchForDockerfile (env : Env) (hb : EnvBenign env)
    (b : Bytes) (t : String) :
    ∃ o, SearchForDockerfile env b t = .ok o := by
  obtain ⟨d, comps, hd, hc⟩ := hb.parse_ok b t
  by_cases hl : b.length = 0
  · exact ⟨none, by unfold SearchForDockerfile; rw [if_pos hl]⟩
  · refine ⟨findFirstDockerfile comps, ?_⟩
    unfold SearchForDockerfile
    rw [if_neg hl, hd]
    simp only [hc]

theorem benign_analyzeAndDetect (env : Env) (hb : EnvBenign env)
    (p reg : String) :
    AnalyzeAndDetectDevfile env p reg = .error (GoErr.noDevfileFound p) := by
  obtain ⟨ts, hts⟩ := hb.types_ok reg
  unfold AnalyzeAndDetectDevfile
  rw [hts, hb.detect_empty p]

theorem benign_step1 (env : Env) (hb : EnvBenign env) (ctx : String)
    (maps : Maps) (d k : Bool) (tok : String) :
    ∃ m1 d1, analyzePathStep1 env ctx maps d k tok = .ok (m1, d1) := by
  by_cases hdd : d = true
  · obtain ⟨o, ho⟩ := benign_searchForDockerfile env hb
      ((maps.devfileMapFromRepo ctx).getD []) tok
    cases o with
    | none =>
      refine ⟨maps, k, ?_⟩
      unfold analyzePathStep1
      rw [if_pos hdd]
      simp only []
      rw [ho]
    | some img =>
      by_cases hh : strStartsWith img.uri "http" = true
      · refine ⟨{ maps with dockerfileContextMapFromRepo := mapSet maps.dockerfileContextMapFromRepo ctx img.uri }, true, ?_⟩
        unfold analyzePathStep1
        rw [if_pos hdd]
        simp only []
        rw [ho]
        simp only []
        rw [if_pos hh]
      · refine ⟨maps, true, ?_⟩
        unfold analyzePathStep1
        rw [if_pos hdd]
        simp only []
        rw [ho]
        simp only []
        rw [if_neg hh]
  · exact ⟨maps, k, by unfold analyzePathStep1; rw [if_neg hdd]⟩

theorem benign_step2 (env : Env) (hb : EnvBenign env)
    (lp ctx reg : String) (maps1 : Maps) (d dock1 : Bool) (tok : String) :
    analyzePathStep2 env lp ctx reg maps1 d dock1 tok = .ok (maps1, dock1) := by
  unfold analyzePathStep2
  by_cases hk : (!dock1) = true
  · rw [if_pos hk, benign_analyzeAndDetect env hb lp reg]
  · rw [if_neg hk]

theorem benign_step3 (env : Env) (hb : EnvBenign env)
    (lp ctx reg : String) (maps2 : Maps) (d dock2 : Bool) :
    analyzePathStep3 env lp ctx reg maps2 d dock2 = .ok maps2 := by
  unfold analyzePathStep3
  by_cases hc : (!d && dock2) = true
  · rw [if_pos hc, benign_analyzeAndDetect env hb lp reg]
  · rw [if_neg hc]

theorem benign_analyzePath (env : Env) (hb : EnvBenign env)
    (lp ctx reg : String) (maps : Maps) (d k : Bool) (tok : String) :
    ∃ m', AnalyzePath env lp ctx reg maps d k tok = .ok m' := by
  obtain ⟨m1, d1, h1⟩ := benign_step1 env hb ctx maps d k tok
  refine ⟨m1, ?_⟩
  unfold AnalyzePath
  rw [h1]
  simp only []
  rw [benign_step2 env hb lp ctx reg m1 d d1 tok]
  simp only []
  exact benign_step3 env hb lp ctx reg m1 d d1

/-- Under a benign environment the hidden-directory loop either succeeds
or fails with an `InvalidDevfile`. -/
theorem benign_hiddenFold (env : Env) (hb : EnvBenign env)
    (U rev tok hp ctx : String) (l : List FSEntry) :
    ∀ (st : CtxState) (r : Except GoErr CtxState),
      hiddenFold env U rev tok hp ctx l st = r →
      (∃ st', r = .ok st') ∨ ∃ e, r = .error (GoErr.invalidDevfile e) := by
  induction l with
  | nil =>
    intro st r h
    exact Or.inl ⟨st, h.symm⟩
  | cons f rest ih =>
    intro st r h
    unfold hiddenFold at h
    simp only [] at h
    split at h
    case h_1 e heq =>
      obtain ⟨s, hs⟩ := hb.link_ok U rev
        (pathJoin (pathJoin ctx HiddenDevfileDir) f.name)
      repeat' split at heq
      all_goals try exact Except.noConfusion heq
      all_goals try (exfalso; simp_all; done)
      · injection heq with heq
        exact Or.inr ⟨_, h.symm.trans (congrArg Except.error heq.symm)⟩
    case h_2 st2 heq =>
      exact ih st2 r h

/-- If the hidden-directory loop succeeds, no manifest-named file in it
failed validation (the link step having succeeded for it). -/
theorem hiddenFold_ok_no_bad (env : Env) (hb : EnvBenign env)
    (U rev tok hp ctx : String) (l : List FSEntry) :
    ∀ (st st' : CtxState),
      hiddenFold env U rev tok hp ctx l st = .ok st' →
      ∀ g ∈ l, (strToLower g.name = Devfile ∨
        strToLower g.name = HiddenDevfile ∨ strToLower g.name = DevfileYml ∨
        strToLower g.name = HiddenDirDevfileYml) →
      ∀ e, env.validateDevfile (pathJoin hp g.name) tok ≠ .error e := by
  induction l with
  | nil =>
    intro st st' h g hg
    exact absurd hg (List.not_mem_nil g)
  | cons f rest ih =>
    intro st st' h g hg hcond e hval
    unfold hiddenFold at h
    simp only [] at h
    split at h
    case h_1 e2 heq => exact Except.noConfusion h
    case h_2 st2 heq =>
      rcases List.mem_cons.mp hg with rfl | hgrest
      · obtain ⟨s, hs⟩ := hb.link_ok U rev
          (pathJoin (pathJoin ctx HiddenDevfileDir) g.name)
        rw [if_pos hcond] at heq
        simp only [hs] at heq
        simp only [hval] at heq
        exact Except.noConfusion heq
      · exact ih st2 st' h g hgrest hcond e hval

/-- Under a benign environment, processing one context entry either
succeeds or fails with an `InvalidDevfile`. -/
theorem benign_processEntry (env : Env) (hb : EnvBenign env)
    (U rev tok curPath ctx : String) (st : CtxState) (f : FSEntry)
    (r : Except GoErr CtxState)
    (h : processEntry env U rev tok curPath ctx st f = r) :
    (∃ st', r = .ok st') ∨ ∃ e, r = .error (GoErr.invalidDevfile e) := by
  unfold processEntry at h
  simp only [] at h
  split at h
  · obtain ⟨s, hs⟩ := hb.link_ok U rev (pathJoin ctx f.name)
    repeat' split at h
    all_goals try (exfalso; simp_all; done)
    · exact Or.inr ⟨_, h.symm⟩
    · exact Or.inl ⟨_, h.symm⟩
    · exact Or.inl ⟨_, h.symm⟩
  · split at h
    · exact benign_hiddenFold env hb U rev tok
        (pathJoin curPath HiddenDevfileDir) ctx f.children st r h
    · repeat' split at h
      all_goals exact Or.inl ⟨_, h.symm⟩

/-- Under a benign environment, scanning a context listing either
succeeds or fails with an `InvalidDevfile`. -/
theorem benign_contextFold (env : Env) (hb : EnvBenign env)
    (U rev tok curPath ctx : String) (l : List FSEntry) :
    ∀ (st : CtxState) (r : Except GoErr CtxState),
      contextFold env U rev tok curPath ctx l st = r →
      (∃ st', r = .ok st') ∨ ∃ e, r = .error (GoErr.invalidDevfile e) := by
  induction l with
  | nil =>
    intro st r h
    exact Or.inl ⟨st, h.symm⟩
  | cons f rest ih =>
    intro st r h
    unfold contextFold at h
    split at h
    case h_1 e heq =>
      rcases benign_processEntry env hb U rev tok curPath ctx st f _ heq with
        ⟨st', hst'⟩ | ⟨e2, he2⟩
      · exact Except.noConfusion hst'
      · injection he2 with he2
        exact Or.inr ⟨e2, h.symm.trans (congrArg Except.error he2)⟩
    case h_2 st2 heq =>
      exact ih st2 r h

/-- A directory entry whose listing is scanned without error contains no
manifest-named file that fails validation. -/
theorem contextFold_ok_no_bad (env : Env) (hb : EnvBenign env)
    (U rev tok curPath ctx : String) (l : List FSEntry) :
    ∀ (st st' : CtxState),
      contextFold env U rev tok curPath ctx l st = .ok st' →
      ∀ f ∈ l,
        ((strToLower f.name = Devfile ∨ strToLower f.name = HiddenDevfile ∨
          strToLower f.name = DevfileYml ∨
          strToLower f.name = HiddenDirDevfileYml) →
          ∀ e, env.validateDevfile (pathJoin curPath f.name) tok ≠
            .error e) ∧
        (f.isDir = true → f.name = HiddenDevfileDir →
          ∀ g ∈ f.children, (strToLower g.name = Devfile ∨
            strToLower g.name = HiddenDevfile ∨
            strToLower g.name = DevfileYml ∨
            strToLower g.name = HiddenDirDevfileYml) →
          ∀ e, env.validateDevfile
            (pathJoin (pathJoin curPath HiddenDevfileDir) g.name) tok ≠
            .error e) := by
  induction l with
  | nil =>
    intro st st' h f hf
    exact absurd hf (List.not_mem_nil f)
  | cons f0 rest ih =>
    intro st st' h f hf
    unfold contextFold at h
    split at h
    case h_1 e heq => exact Except.noConfusion h
    case h_2 st2 heq =>
      rcases List.mem_cons.mp hf with rfl | hfrest
      · constructor
        · intro hcond e hval
          obtain ⟨s, hs⟩ := hb.link_ok U rev (pathJoin ctx f.name)
          unfold processEntry at heq
          simp only [] at heq
          rw [if_pos hcond] at heq
          simp only [hs] at heq
          simp only [hval] at heq
          exact Except.noConfusion heq
        · intro hdir hname g hg hgcond e hval
          have hlow : ¬ (strToLower f.name = Devfile ∨
              strToLower f.name = HiddenDevfile ∨
              strToLower f.name = DevfileYml ∨
              strToLower f.name = HiddenDirDevfileYml) := by
            rw [hname]
            decide
          unfold processEntry at heq
          simp only [] at heq
          rw [if_neg hlow] at heq
          rw [if_pos (by simp [hdir, hname])] at heq
          exact hiddenFold_ok_no_bad env hb U rev tok
            (pathJoin curPath HiddenDevfileDir) ctx f.children st st2 heq
            g hg hgcond e hval
      · exact ih st2 st' h f hfrest

/-- Under a benign environment a whole context's processing either
succeeds or fails with an `InvalidDevfile`. -/
theorem benign_processContext (env : Env) (hb : EnvBenign env)
    (localpath srcContext : String) (cdqInfo : CDQInfoClient) (maps : Maps)
    (f : FSEntry) (r : Except GoErr Maps)
    (h : processContext env localpath srcContext cdqInfo maps f = r) :
    (∃ m', r = .ok m') ∨ ∃ e, r = .error (GoErr.invalidDevfile e) := by
  unfold processContext at h
  simp only [] at h
  split at h
  case h_1 e heq =>
    rcases benign_contextFold env hb cdqInfo.gitURL.repoURL
      cdqInfo.gitURL.revision cdqInfo.gitURL.token
      (pathJoin localpath f.name) (pathJoin srcContext f.name) f.children
      _ _ heq with ⟨st', hst'⟩ | ⟨e2, he2⟩
    · exact Except.noConfusion hst'
    · injection he2 with he2
      exact Or.inr ⟨e2, h.symm.trans (congrArg Except.error he2)⟩
  case h_2 m d k heq =>
    repeat' split at h
    all_goals try exact Or.inl ⟨_, h.symm⟩
    all_goals
      rcases benign_analyzePath env hb (pathJoin localpath f.name)
        (pathJoin srcContext f.name) cdqInfo.devfileRegistryURL _ d _
        cdqInfo.gitURL.token with ⟨m', hm'⟩
    all_goals rw [hm'] at h
    all_goals exact Or.inl ⟨m', h.symm⟩

/-- A context entry of the scan that holds an invalid manifest (flat or
inside `.devfile/`). -/
def badContext (env : Env) (token curPath : String) (f : FSEntry) : Prop :=
  ∃ g ∈ f.children,
    ((strToLower g.name = Devfile ∨ strToLower g.name = HiddenDevfile ∨
      strToLower g.name = DevfileYml ∨
      strToLower g.name = HiddenDirDevfileYml) ∧
      ∃ e, env.validateDevfile (pathJoin curPath g.name) token =
        .error e) ∨
    (g.isDir = true ∧ g.name = HiddenDevfileDir ∧
      ∃ g2 ∈ g.children, (strToLower g2.name = Devfile ∨
        strToLower g2.name = HiddenDevfile ∨
        strToLower g2.name = DevfileYml ∨
        strToLower g2.name = HiddenDirDevfileYml) ∧
        ∃ e, env.validateDevfile
          (pathJoin (pathJoin curPath HiddenDevfileDir) g2.name) token =
          .error e)

/-- A context holding an invalid manifest makes the whole context
processing fail with `InvalidDevfile` (benign environment). -/
theorem processContext_bad (env : Env) (hb : EnvBenign env)
    (localpath srcContext : String) (cdqInfo : CDQInfoClient) (maps : Maps)
    (f : FSEntry)
    (hbad : badContext env cdqInfo.gitURL.token (pathJoin localpath f.name)
      f) :
    ∃ e, processContext env localpath srcContext cdqInfo maps f =
      .error (GoErr.invalidDevfile e) := by
  rcases benign_contextFold env hb cdqInfo.gitURL.repoURL
    cdqInfo.gitURL.revision cdqInfo.gitURL.token (pathJoin localpath f.name)
    (pathJoin srcContext f.name) f.children (maps, false, false) _ rfl with
    ⟨st', hok⟩ | ⟨e, herr⟩
  · exfalso
    obtain ⟨g, hg, hcase⟩ := hbad
    have hng := contextFold_ok_no_bad env hb cdqInfo.gitURL.repoURL
      cdqInfo.gitURL.revision cdqInfo.gitURL.token
      (pathJoin localpath f.name) (pathJoin srcContext f.name) f.children
      (maps, false, false) st' hok g hg
    rcases hcase with ⟨hcond, e, hval⟩ | ⟨hdir, hname, g2, hg2, hgcond, e, hval⟩
    · exact hng.1 hcond e hval
    · exact hng.2 hdir hname g2 hg2 hgcond e hval
  · refine ⟨e, ?_⟩
    unfold processContext
    simp only []
    rw [herr]

/-- The scan loop aborts with `InvalidDevfile` as soon as some context
directory holds an invalid manifest (benign environment). -/
theorem searchLoop_bad (env : Env) (hb : EnvBenign env)
    (localpath srcContext : String) (cdqInfo : CDQInfoClient)
    (roots : List FSEntry) :
    ∀ maps : Maps,
      (∃ d ∈ roots, d.isDir = true ∧
        badContext env cdqInfo.gitURL.token (pathJoin localpath d.name) d) →
      ∃ e, searchLoop env localpath srcContext cdqInfo roots maps =
        .error (GoErr.invalidDevfile e) := by
  induction roots with
  | nil =>
    intro maps ⟨d, hd, _⟩
    exact absurd hd (List.not_mem_nil d)
  | cons f rest ih =>
    intro maps ⟨d, hd, hdir, hbad⟩
    rcases List.mem_cons.mp hd with rfl | hdrest
    · obtain ⟨e, he⟩ := processContext_bad env hb localpath srcContext
        cdqInfo maps d hbad
      refine ⟨e, ?_⟩
      unfold searchLoop
      rw [if_pos hdir, he]
    · unfold searchLoop
      by_cases hfd : f.isDir = true
      · rw [if_pos hfd]
        rcases benign_processContext env hb localpath srcContext cdqInfo
          maps f _ rfl with ⟨m2, hm2⟩ | ⟨e, he⟩
        · rw [hm2]
          exact ih m2 ⟨d, hdrest, hdir, hbad⟩
        · exact ⟨e, by rw [he]⟩
      · rw [if_neg hfd]
        exact ih maps ⟨d, hdrest, hdir, hbad⟩

/-- Claim C1: if any context of the scan holds a manifest that the
external validator rejects, the whole `search` returns an
`InvalidDevfile` error — and, the result being an error, none of the four
maps is produced (the source returns nil for all four on every error
path) — even when every other collaborator call succeeds. -/
theorem search_invalidManifest_aborts (env : Env)
    (localpath srcContext : String) (cdqInfo : CDQInfoClient)
    (rootEntries : List FSEntry) (hb : EnvBenign env)
    (hbad : ∃ d ∈ rootEntries, d.isDir = true ∧
      badContext env cdqInfo.gitURL.token (pathJoin localpath d.name) d) :
    ∃ e, search env localpath srcContext cdqInfo rootEntries =
      .error (GoErr.invalidDevfile e) :=
  searchLoop_bad env hb localpath srcContext cdqInfo rootEntries emptyMaps
    hbad

/-- An environment that is benign except that every on-disk manifest
fails validation. -/
def envC1 : Env :=
  { updateGitLink := fun _ _ _ => .ok ""
    validateDevfile := fun _ _ => .error (GoErr.errMsg "broken yaml")
    parseDevfileData := fun _ _ => .ok ⟨.ok []⟩
    parseDevfileURL := fun _ => .ok ⟨.ok []⟩
    yamlMarshal := fun _ => .ok []
    getAlizerDevfileTypes := fun _ => .ok []
    detectComponents := fun _ => .ok []
    selectDevFileFromTypes := fun _ _ => (emptyDevfileType, none)
    getRepoFromRegistry := fun _ _ => .ok "" }

theorem search_invalidManifest_aborts_witness :
    (∃ d ∈ [FSEntry.dir "a" [], FSEntry.dir "b" [.file "devfile.yaml"]],
      d.isDir = true ∧
      badContext envC1 cdq0.gitURL.token (pathJoin "r" d.name) d) ∧
    ∃ e, search envC1 "r" "s" cdq0
      [FSEntry.dir "a" [], FSEntry.dir "b" [.file "devfile.yaml"]] =
      .error (GoErr.invalidDevfile e) :=
  ⟨⟨FSEntry.dir "b" [.file "devfile.yaml"],
    List.mem_cons_of_mem _ (List.mem_cons_self _ _), rfl,
    ⟨FSEntry.file "devfile.yaml", List.mem_cons_self _ _,
      Or.inl ⟨by decide, ⟨GoErr.errMsg "broken yaml", rfl⟩⟩⟩⟩,
   search_invalidManifest_aborts envC1 "r" "s" cdq0
    [FSEntry.dir "a" [], FSEntry.dir "b" [.file "devfile.yaml"]]
    ⟨fun _ _ _ => ⟨"", rfl⟩, fun _ _ => ⟨⟨.ok []⟩, [], rfl, rfl⟩,
     fun _ => ⟨[], rfl⟩, fun _ => rfl⟩
    ⟨FSEntry.dir "b" [.file "devfile.yaml"],
      List.mem_cons_of_mem _ (List.mem_cons_self _ _), rfl,
      ⟨FSEntry.file "devfile.yaml", List.mem_cons_self _ _,
        Or.inl ⟨by decide, ⟨GoErr.errMsg "broken yaml", rfl⟩⟩⟩⟩⟩

/-! ### Claim C6 -/

theorem tryDevfileType_ports (env : Env) (reg : String)
    (ports : Option (List Int)) (t : DevfileType) (r : DetectResult)
    (h : tryDevfileType env reg ports t = .ok (some r)) :
    r.2.2.2 = ports := by
  unfold tryDevfileType at h
  repeat' split at h
  all_goals try exact Except.noConfusion h
  all_goals injection h with h
  all_goals try exact Option.noConfusion h
  all_goals injection h with h
  all_goals subst h
  all_goals rfl

theorem detectLanguagesLoop_ports (env : Env) (p reg : String)
    (ts : List DevfileType) (ports : Option (List Int)) :
    ∀ (langs : List Language) (r : DetectResult),
      detectLanguagesLoop env p reg ts ports langs = .ok r →
      r.2.2.2 = ports := by
  intro langs
  induction langs with
  | nil =>
    intro r h
    exact Except.noConfusion h
  | cons lang rest ih =>
    intro r h
    unfold detectLanguagesLoop at h
    simp only [] at h
    repeat' split at h
    all_goals try exact Except.noConfusion h
    all_goals try exact ih r h
    all_goals injection h with h
    all_goals subst h
    all_goals
      rename_i heq
    all_goals exact tryDevfileType_ports env reg ports _ _ heq

theorem analyzeAndDetect_ports (env : Env) (p reg : String)
    (r : DetectResult) (h : AnalyzeAndDetectDevfile env p reg = .ok r) :
    ∃ c rest, env.detectComponents p = .ok (c :: rest) ∧
      r.2.2.2 = c.ports := by
  unfold AnalyzeAndDetectDevfile at h
  split at h
  · exact Except.noConfusion h
  case h_2 ts hts =>
    split at h
    · exact Except.noConfusion h
    case h_2 comps hcomps =>
      split at h
      · exact Except.noConfusion h
      case h_2 c rest2 =>
        exact ⟨c, rest2, hcomps,
          detectLanguagesLoop_ports env p reg ts c.ports c.languages r h⟩

/-- Where a port entry in step 2's result comes from: either it was
already there, or it is this context's entry and it is exactly the
non-empty port list of the classifier's first component. -/
theorem analyzePathStep2_ports (env : Env) (lp ctx reg : String)
    (maps1 : Maps) (d dock1 : Bool) (tok : String) (m2 : Maps) (d2 : Bool)
    (h : analyzePathStep2 env lp ctx reg maps1 d dock1 tok =
      .ok (m2, d2)) :
    ∀ key ps, m2.componentPortsMapFromRepo key = some ps →
      maps1.componentPortsMapFromRepo key = some ps ∨
      (key = ctx ∧ ps ≠ [] ∧ ∃ c rest,
        env.detectComponents lp = .ok (c :: rest) ∧ c.ports = some ps) := by
  unfold analyzePathStep2 at h
  by_cases hk0 : (!dock1) = true
  · rw [if_pos hk0] at h
    cases hA : AnalyzeAndDetectDevfile env lp reg with
    | error e =>
      rw [hA] at h
      cases e with
      | noDevfileFound loc =>
        simp only [] at h
        injection h with h
        injection h with h1 h2
        subst h1
        exact fun key ps hk => Or.inl hk
      | invalidDevfile e2 => exact Except.noConfusion h
      | errMsg msg => exact Except.noConfusion h
    | ok quad =>
      obtain ⟨dd, ep, nm, dp⟩ := quad
      rw [hA] at h
      simp only [] at h
      by_cases hlen : dd.length > 0
      · rw [if_pos hlen] at h
        cases hrepo : env.getRepoFromRegistry nm reg with
        | error e => rw [hrepo] at h; exact Except.noConfusion h
        | ok sampleRepoURL =>
          rw [hrepo] at h
          simp only [] at h
          cases hsd : SearchForDockerfile env dd tok with
          | error e => rw [hsd] at h; exact Except.noConfusion h
          | ok dockerfileImage =>
            rw [hsd] at h
            simp only [] at h
            generalize (match dockerfileImage with
              | some img => img.uri
              | none => "") = duri at h
            cases hup : env.updateGitLink sampleRepoURL "" duri with
            | error e => rw [hup] at h; exact Except.noConfusion h
            | ok link =>
              rw [hup] at h
              simp only [] at h
              cases dp with
              | none =>
                simp only [] at h
                injection h with h
                injection h with h1 h2
                subst h1
                intro key ps hk
                by_cases hdev : (!d) = true
                · rw [if_pos hdev] at hk
                  exact Or.inl hk
                · rw [if_neg hdev] at hk
                  exact Or.inl hk
              | some ps0 =>
                simp only [] at h
                by_cases hps0 : ps0 = []
                · rw [if_pos hps0] at h
                  injection h with h
                  injection h with h1 h2
                  subst h1
                  intro key ps hk
                  by_cases hdev : (!d) = true
                  · rw [if_pos hdev] at hk
                    exact Or.inl hk
                  · rw [if_neg hdev] at hk
                    exact Or.inl hk
                · rw [if_neg hps0] at h
                  injection h with h
                  injection h with h1 h2
                  subst h1
                  intro key ps hk
                  simp only [mapSet_apply] at hk
                  by_cases hkey : key = ctx
                  · rw [if_pos hkey] at hk
                    injection hk with hk
                    subst hk
                    obtain ⟨c, rest, hdet, hports⟩ :=
                      analyzeAndDetect_ports env lp reg (dd, ep, nm, some ps0) hA
                    exact Or.inr ⟨hkey, hps0, c, rest, hdet, hports.symm⟩
                  · rw [if_neg hkey] at hk
                    by_cases hdev : (!d) = true
                    · rw [if_pos hdev] at hk
                      exact Or.inl hk
                    · rw [if_neg hdev] at hk
                      exact Or.inl hk
      · rw [if_neg hlen] at h
        injection h with h
        injection h with h1 h2
        subst h1
        exact fun key ps hk => Or.inl hk
  · rw [if_neg hk0] at h
    injection h with h
    injection h with h1 h2
    subst h1
    exact fun key ps hk => Or.inl hk

/-- Where a port entry in step 3's result comes from. -/
theorem analyzePathStep3_ports (env : Env) (lp ctx reg : String)
    (maps2 : Maps) (d k : Bool) (m' : Maps)
    (h : analyzePathStep3 env lp ctx reg maps2 d k = .ok m') :
    ∀ key ps, m'.componentPortsMapFromRepo key = some ps →
      maps2.componentPortsMapFromRepo key = some ps ∨
      (key = ctx ∧ ps ≠ [] ∧ ∃ c rest,
        env.detectComponents lp = .ok (c :: rest) ∧ c.ports = some ps) := by
  unfold analyzePathStep3 at h
  by_cases hc : (!d && k) = true
  · rw [if_pos hc] at h
    cases hA : AnalyzeAndDetectDevfile env lp reg with
    | error e =>
      rw [hA] at h
      injection h with h
      subst h
      exact fun key ps hk => Or.inl hk
    | ok quad =>
      obtain ⟨dd, ep, nm, dp⟩ := quad
      rw [hA] at h
      simp only [] at h
      cases dp with
      | none =>
        simp only [] at h
        injection h with h
        subst h
        exact fun key ps hk => Or.inl hk
      | some ps0 =>
        simp only [] at h
        by_cases hps0 : ps0 = []
        · rw [if_pos hps0] at h
          injection h with h
          subst h
          exact fun key ps hk => Or.inl hk
        · rw [if_neg hps0] at h
          injection h with h
          subst h
          intro key ps hk
          simp only [mapSet_apply] at hk
          by_cases hkey : key = ctx
          · rw [if_pos hkey] at hk
            injection hk with hk
            subst hk
            obtain ⟨c, rest, hdet, hports⟩ :=
              analyzeAndDetect_ports env lp reg (dd, ep, nm, some ps0) hA
            exact Or.inr ⟨hkey, hps0, c, rest, hdet, hports.symm⟩
          · rw [if_neg hkey] at hk
            exact Or.inl hk
  · rw [if_neg hc] at h
    injection h with h
    subst h
    exact fun key ps hk => Or.inl hk

/-- Where a port entry in `AnalyzePath`'s result comes from. -/
theorem analyzePath_ports (env : Env) (lp ctx reg : String) (maps : Maps)
    (d k : Bool) (tok : String) (m' : Maps)
    (h : AnalyzePath env lp ctx reg maps d k tok = .ok m') :
    ∀ key ps, m'.componentPortsMapFromRepo key = some ps →
      maps.componentPortsMapFromRepo key = some ps ∨
      (key = ctx ∧ ps ≠ [] ∧ ∃ c rest,
        env.detectComponents lp = .ok (c :: rest) ∧ c.ports = some ps) := by
  unfold AnalyzePath at h
  split at h
  · exact Except.noConfusion h
  case h_2 r1 m1 d1 heq1 =>
    split at h
    · exact Except.noConfusion h
    case h_2 r2 m2 d2 heq2 =>
      intro key ps hk
      rcases analyzePathStep3_ports env lp ctx reg m2 d d2 m' h key ps hk
        with h3 | h3
      · rcases analyzePathStep2_ports env lp ctx reg m1 d d1 tok m2 d2 heq2
          key ps h3 with h2 | h2
        · obtain ⟨_, _, hports1, _⟩ := analyzePathStep1_frame env ctx maps
            d k tok m1 d1 heq1
          rw [hports1] at h2
          exact Or.inl h2
        · exact Or.inr h2
      · exact Or.inr h3

/-- Where a port entry in a context's outcome comes from. -/
theorem processContext_ports (env : Env) (localpath srcContext : String)
    (cdqInfo : CDQInfoClient) (maps : Maps) (f : FSEntry) (m' : Maps)
    (h : processContext env localpath srcContext cdqInfo maps f = .ok m') :
    ∀ key ps, m'.componentPortsMapFromRepo key = some ps →
      maps.componentPortsMapFromRepo key = some ps ∨
      (key = pathJoin srcContext f.name ∧ ps ≠ [] ∧ ∃ c rest,
        env.detectComponents (pathJoin localpath f.name) = .ok (c :: rest) ∧
        c.ports = some ps) := by
  unfold processContext at h
  simp only [] at h
  split at h
  · exact Except.noConfusion h
  case h_2 r st1 d1 k1 heq =>
    have hscan : st1.componentPortsMapFromRepo =
        maps.componentPortsMapFromRepo :=
      contextFold_ports env cdqInfo.gitURL.repoURL cdqInfo.gitURL.revision
        cdqInfo.gitURL.token (pathJoin localpath f.name)
        (pathJoin srcContext f.name) f.children (maps, false, false)
        (st1, d1, k1) heq
    repeat' split at h
    all_goals try
      (injection h with h
       subst h
       intro key ps hk
       rw [hscan] at hk
       exact Or.inl hk)
    all_goals
      intro key ps hk
    all_goals
      rcases analyzePath_ports env (pathJoin localpath f.name)
        (pathJoin srcContext f.name) cdqInfo.devfileRegistryURL _ d1 _
        cdqInfo.gitURL.token m' h key ps hk with hp | hp
    all_goals try exact Or.inr hp
    all_goals try simp only [] at hp
    all_goals rw [hscan] at hp
    all_goals exact Or.inl hp

/-- Where a port entry in the scan loop's result comes from. -/
theorem searchLoop_ports (env : Env) (localpath srcContext : String)
    (cdqInfo : CDQInfoClient) (roots : List FSEntry) :
    ∀ (maps m' : Maps),
      searchLoop env localpath srcContext cdqInfo roots maps = .ok m' →
      ∀ key ps, m'.componentPortsMapFromRepo key = some ps →
        maps.componentPortsMapFromRepo key = some ps ∨
        (∃ name, key = pathJoin srcContext name ∧ ps ≠ [] ∧ ∃ c rest,
          env.detectComponents (pathJoin localpath name) = .ok (c :: rest) ∧
          c.ports = some ps) := by
  induction roots with
  | nil =>
    intro maps m' h key ps hk
    injection h with h
    subst h
    exact Or.inl hk
  | cons f rest ih =>
    intro maps m' h key ps hk
    unfold searchLoop at h
    split at h
    · split at h
      · exact Except.noConfusion h
      case h_2 m2 heq =>
        rcases ih m2 m' h key ps hk with h1 | h1
        · rcases processContext_ports env localpath srcContext cdqInfo maps
            f m2 heq key ps h1 with h2 | h2
          · exact Or.inl h2
          · exact Or.inr ⟨f.name, h2⟩
        · exact Or.inr h1
    · exact ih maps m' h key ps hk

/-- Claim C6 (amended, the "only if" direction): every entry of the
result's port map is a non-empty list that the classifier actually
returned as the first detected component's ports for that context; an
empty or nil classifier port list therefore never yields an entry.  (The
converse direction of the claim is false: see the counterexample.) -/
theorem port_entries_only_from_detection (env : Env)
    (localpath srcContext : String) (cdqInfo : CDQInfoClient)
    (roots : List FSEntry) (m : Maps)
    (h : search env localpath srcContext cdqInfo roots = .ok m)
    (key : String) (ps : List Int)
    (hk : m.componentPortsMapFromRepo key = some ps) :
    ps ≠ [] ∧ ∃ name c rest, key = pathJoin srcContext name ∧
      env.detectComponents (pathJoin localpath name) = .ok (c :: rest) ∧
      c.ports = some ps := by
  rcases searchLoop_ports env localpath srcContext cdqInfo roots emptyMaps m
    h key ps hk with h1 | ⟨name, hkey, hne, c, rest, hdet, hports⟩
  · exact Option.noConfusion h1
  · exact ⟨hne, name, c, rest, hkey, hdet, hports⟩

/-- An environment whose classifier reports a component with non-empty
ports but no component-capable language: no catalog match is possible. -/
def envC6 : Env :=
  { updateGitLink := fun _ _ _ => .ok ""
    validateDevfile := fun _ _ => .ok (false, [])
    parseDevfileData := fun _ _ => .ok ⟨.ok []⟩
    parseDevfileURL := fun _ => .ok ⟨.ok []⟩
    yamlMarshal := fun _ => .ok []
    getAlizerDevfileTypes := fun _ => .ok []
    detectComponents := fun _ => .ok [⟨[⟨false⟩], some [8080]⟩]
    selectDevFileFromTypes := fun _ _ => (emptyDevfileType, none)
    getRepoFromRegistry := fun _ _ => .ok "" }

/-- Claim C6 as stated (an "if and only if") fails on the code: the
classifier reports the non-empty port list `[8080]` for the context, yet
the result's port map has no entry for it, because no catalog match
exists (the only detected language cannot be a component). -/
theorem port_entry_iff_cex :
    (match search envC6 "r" "s" cdq0 [.dir "comp" []] with
     | .ok m => m.componentPortsMapFromRepo "s/comp"
     | .error _ => none) = none ∧
    envC6.detectComponents (pathJoin "r" "comp") =
      .ok [⟨[⟨false⟩], some [8080]⟩] := by
  constructor
  · decide
  · rfl

theorem port_entries_only_from_detection_witness :
    (match search envC4 "r" "s" cdq0 [.dir "comp" []] with
     | .ok m => m.componentPortsMapFromRepo "s/comp"
     | .error _ => none) = some [8080] ∧
    ([8080] ≠ ([] : List Int) ∧ ∃ name c rest,
      "s/comp" = pathJoin "s" name ∧
      envC4.detectComponents (pathJoin "r" name) = .ok (c :: rest) ∧
      c.ports = some [8080]) := by
  have h1 : (match search envC4 "r" "s" cdq0 [.dir "comp" []] with
     | .ok m => m.componentPortsMapFromRepo "s/comp"
     | .error _ => none) = some [8080] := by decide
  refine ⟨h1, ?_⟩
  cases hs : search envC4 "r" "s" cdq0 [.dir "comp" []] with
  | error e =>
    rw [hs] at h1
    exact absurd h1 (by simp)
  | ok m =>
    rw [hs] at h1
    exact port_entries_only_from_detection envC4 "r" "s" cdq0
      [.dir "comp" []] m hs "s/comp" [8080] h1

end CdqAnalysis
